import Mathlib

/-!
Verification of the `newversion` PEP 440 version-bump engine
(`newversion/version.py`).

The development shallowly embeds the structured version value
(`packaging.version._Version`, called `BaseVersion` in the source), the
PEP 440 comparison key, and the bump/replace operations of
`newversion.Version`.

The `packaging.version` base class (parse / render / ordering / the
`major`, `minor`, `micro`, `is_prerelease`, ... properties) is a
third-party collaborator that is not part of the repository; it is
modelled from the spec (sections 3 and 4.1) and from the PEP 440 rules
the spec cites.  The repository files `newversion/constants.py` and
`newversion/type_defs.py` are also not available; the pre-release tags
`alpha`/`beta`/`rc` and the release-part selectors they define are
modelled from the spec as the inductive types `PreTag` and `ReleasePart`.

Numbers are embedded as `Int` (Python integers); fallible operations
(those that re-render and re-parse, raising `VersionError` on a
component that does not round-trip, e.g. a negative number) return
`Option BaseVersion`, with `none` standing for a raised `VersionError`.
-/

/-- Modelled from the spec: pre-release kind, one of alpha/beta/rc
(`newversion.constants.VersionParts` / `PrereleaseTypeDef`, not under
`src/`).  After parsing, `packaging` normalizes the letter to
`a`/`b`/`rc`; the three tags order as `alpha < beta < rc`, matching the
lexicographic order of the normalized letters. -/
inductive PreTag where
  | alpha
  | beta
  | rc
deriving DecidableEq, Repr

/-- Modelled from the spec: one segment of a parsed local-version tuple:
`packaging` turns every all-digit chunk into an int and keeps other
chunks as lowercase strings. -/
inductive LocalSeg where
  | num (n : Int)
  | str (s : String)
deriving DecidableEq, Repr

/-- Modelled from the spec: release-part selector strings
(`ReleaseMainTypeDef` / `ReleaseMainPostTypeDef` in
`newversion/type_defs.py`, not under `src/`): one of
`major`/`minor`/`micro`, plus `post` which only `bump_dev` accepts. -/
inductive ReleasePart where
  | major
  | minor
  | micro
  | post
deriving DecidableEq, Repr

/-- The structured version value (`packaging.version._Version`, exposed
as `BaseVersion` by `newversion.type_defs`): epoch, release number
sequence, optional pre/post/dev markers and optional local segment.
The `pre` marker keeps its kind; `post` and `dev` store only the number
(their Python first components are the constant strings `"post"` and
`"dev"`).  `locl` embeds the Python field `local`. -/
structure BaseVersion where
  epoch : Int
  release : List Int
  pre : Option (PreTag × Int)
  post : Option Int
  dev : Option Int
  locl : Option (List LocalSeg)
deriving DecidableEq, Repr

/-- Three-way comparison of integers, the base case of the PEP 440
comparison key. -/
def cmpInt (a b : Int) : Ordering :=
  if a < b then .lt else if a = b then .eq else .gt

/-- Lexicographic comparison of lists by an element comparator, with the
Python tuple rule that a strict prefix is smaller. -/
def cmpLexBy (f : α → α → Ordering) : List α → List α → Ordering
  | [], [] => .eq
  | [], _ :: _ => .lt
  | _ :: _, [] => .gt
  | a :: as, b :: bs => (f a b).then (cmpLexBy f as bs)

/-- Release part of the PEP 440 comparison key: trailing zeros of the
release tuple are dropped before comparing
(`packaging.version._cmpkey`). -/
def trimRelease : List Int → List Int
  | [] => []
  | x :: xs =>
    match trimRelease xs with
    | [] => if x = 0 then [] else [x]
    | ys => x :: ys

/-- Rank of a pre-release tag; `alpha < beta < rc` matches the string
order of the normalized letters `a < b < rc` used by `packaging`. -/
def tagRank : PreTag → Int
  | .alpha => 0
  | .beta => 1
  | .rc => 2

/-- Pre-release slot of the PEP 440 comparison key: `negInf` when the
version is a pure dev release, `inf` when there is no pre-release
marker (so the plain release sorts after its pre-releases), else the
marker itself. -/
inductive PreKey where
  | negInf
  | val (t : PreTag) (n : Int)
  | inf
deriving DecidableEq, Repr

/-- Pre-release key of a version, following `packaging.version._cmpkey`:
no pre, no post but a dev marker sorts below everything; no pre
(otherwise) sorts above every pre-release; else the marker. -/
def preKey (v : BaseVersion) : PreKey :=
  match v.pre, v.post, v.dev with
  | none, none, some _ => .negInf
  | none, _, _ => .inf
  | some p, _, _ => .val p.1 p.2

/-- Comparison of pre-release keys. -/
def cmpPreKey : PreKey → PreKey → Ordering
  | .negInf, .negInf => .eq
  | .negInf, _ => .lt
  | _, .negInf => .gt
  | .inf, .inf => .eq
  | .inf, _ => .gt
  | _, .inf => .lt
  | .val t n, .val t' n' => (cmpInt (tagRank t) (tagRank t')).then (cmpInt n n')

/-- Comparison of post-release keys: a missing post marker sorts below
any post marker (`NegativeInfinity` in `packaging`). -/
def cmpPost : Option Int → Option Int → Ordering
  | none, none => .eq
  | none, some _ => .lt
  | some _, none => .gt
  | some a, some b => cmpInt a b

/-- Comparison of dev-release keys: a missing dev marker sorts above any
dev marker (`Infinity` in `packaging`). -/
def cmpDev : Option Int → Option Int → Ordering
  | none, none => .eq
  | none, some _ => .gt
  | some _, none => .lt
  | some a, some b => cmpInt a b

/-- Comparison of local segments: numeric segments sort above string
segments (`packaging` keys them as `(n, "")` versus `(NegativeInfinity,
s)`). -/
def cmpLocalSeg : LocalSeg → LocalSeg → Ordering
  | .num a, .num b => cmpInt a b
  | .num _, .str _ => .gt
  | .str _, .num _ => .lt
  | .str a, .str b => compare a b

/-- Comparison of local keys: a missing local part sorts below any local
part. -/
def cmpLocal : Option (List LocalSeg) → Option (List LocalSeg) → Ordering
  | none, none => .eq
  | none, some _ => .lt
  | some _, none => .gt
  | some a, some b => cmpLexBy cmpLocalSeg a b

/-- The PEP 440 ordering on structured versions, per
`packaging.version._cmpkey` as described in spec section 4.1: epoch,
then the release tuple with trailing zeros removed, then the
pre/post/dev keys, then the local key. -/
def cmpVersion (a b : BaseVersion) : Ordering :=
  (cmpInt a.epoch b.epoch).then
    ((cmpLexBy cmpInt (trimRelease a.release) (trimRelease b.release)).then
      ((cmpPreKey (preKey a) (preKey b)).then
        ((cmpPost a.post b.post).then
          ((cmpDev a.dev b.dev).then (cmpLocal a.locl b.locl)))))

/-- Validity of a local segment under the PEP 440 grammar: numbers are
non-negative, string segments are non-empty lowercase alphanumerics and
not all digits (an all-digit chunk parses as a number, so a string one
would not round-trip). -/
def validSeg : LocalSeg → Bool
  | .num n => decide (0 ≤ n)
  | .str s =>
    decide (s ≠ "") && s.all (fun c => c.isDigit || (c.isAlpha && c.isLower)) &&
      !(s.all Char.isDigit)

/-- Validity of the local part: absent, or a non-empty list of valid
segments. -/
def validLocl : Option (List LocalSeg) → Bool
  | none => true
  | some segs => decide (segs ≠ []) && segs.all validSeg

/-- Whether a structured value renders to a string the PEP 440 grammar
accepts (and hence re-parses to itself): every number non-negative and
the release non-empty.  Candidates violating this make
`Version.__str__` produce an unparsable string, so the re-parse in
`Version._replace` raises `VersionError`. -/
def validBase (b : BaseVersion) : Bool :=
  decide (0 ≤ b.epoch) && decide (b.release ≠ []) &&
    b.release.all (fun x => decide (0 ≤ x)) &&
    (match b.pre with | none => true | some p => decide (0 ≤ p.2)) &&
    (match b.post with | none => true | some n => decide (0 ≤ n)) &&
    (match b.dev with | none => true | some n => decide (0 ≤ n)) &&
    validLocl b.locl

/-- Embeds `Version._replace`: re-render the low-level value and
re-parse it.  On a canonical valid value this round-trip is the
identity; on an invalid one the re-parse raises `VersionError`
(`none`). -/
def replaceBase (b : BaseVersion) : Option BaseVersion :=
  if validBase b then some b else none

namespace Version

/-- Property `major` of `packaging.version.Version`: first release
component, `0` when absent. -/
def major (v : BaseVersion) : Int := v.release.getD 0 0

/-- Property `minor`: second release component, `0` when absent. -/
def minor (v : BaseVersion) : Int := v.release.getD 1 0

/-- Property `micro`: third release component, `0` when absent. -/
def micro (v : BaseVersion) : Int := v.release.getD 2 0

/-- Property `is_devrelease`: the dev marker is present. -/
def is_devrelease (v : BaseVersion) : Bool := v.dev.isSome

/-- Property `is_postrelease`: the post marker is present. -/
def is_postrelease (v : BaseVersion) : Bool := v.post.isSome

/-- Property `is_prerelease` of `packaging.version.Version`: a dev or
pre marker is present. -/
def is_prerelease (v : BaseVersion) : Bool := v.dev.isSome || v.pre.isSome

/-- Property `Version.is_stable`: not a pre-release (in the
`packaging` sense, which includes dev releases). -/
def is_stable (v : BaseVersion) : Bool := !is_prerelease v

/-- Property `Version.prerelease_type`: the kind of the pre marker, if
any (the source maps the normalized letters `a`/`b`/`rc` back to
alpha/beta/rc; parsing yields no other letters). -/
def prerelease_type (v : BaseVersion) : Option PreTag := v.pre.map (fun p => p.1)

/-- Keep-or-override helper for `Version._copy_base` arguments: the
Python `None` sentinel means "keep the current field". -/
def pick (arg cur : Option α) : Option α :=
  match arg with
  | some a => some a
  | none => cur

/-- Embeds `Version._copy_base`: rebuild the low-level value, taking
each explicitly passed field and keeping the rest.  Argument order
follows the source: epoch, release, dev, pre, post, local. -/
def copy_base (v : BaseVersion) (epoch : Option Int) (release : Option (List Int))
    (dev : Option Int) (pre : Option (PreTag × Int)) (post : Option Int)
    (locl : Option (List LocalSeg)) : BaseVersion :=
  ⟨epoch.getD v.epoch, release.getD v.release, pick pre v.pre,
    pick post v.post, pick dev v.dev, pick locl v.locl⟩

/-- The stable base `Version.get_stable` builds: epoch 0, the
`(major, minor, micro)` triple, and no pre/post/dev/local facet. -/
def get_stableBase (v : BaseVersion) : BaseVersion :=
  ⟨0, [major v, minor v, micro v], none, none, none, none⟩

/-- Embeds `Version.get_stable`: `_replace` with the stable base. -/
def get_stable (v : BaseVersion) : Option BaseVersion :=
  replaceBase (get_stableBase v)

/-- Embeds `Version.bump_major`.  When the version is not stable and the
two lower components are already zero, the current release triple is
treated as the next stable release: recurse on the stabilized version
with `inc - 1`.  Otherwise build the bumped stable base directly. -/
def bump_major (v : BaseVersion) (inc : Int) : Option BaseVersion :=
  if is_stable v = false ∧ minor v = 0 ∧ micro v = 0 then
    match h : get_stable v with
    | some s => bump_major s (inc - 1)
    | none => none
  else
    replaceBase ⟨0, [major v + inc, 0, 0], none, none, none, none⟩
termination_by (if is_stable v then 0 else 1 : Nat)
decreasing_by
  rename_i hguard
  have hg : is_stable v = false := hguard.1
  unfold get_stable replaceBase at h
  split at h
  · injection h with h
    subst h
    have hne : ¬(v.dev = none ∧ v.pre = none) := by
      intro hc
      simp [is_stable, is_prerelease, hc.1, hc.2] at hg
    simp [is_stable, is_prerelease, get_stableBase, hne]
  · cases h

/-- Embeds `Version.bump_minor`; same shape as `bump_major`, guarded on
`micro == 0`. -/
def bump_minor (v : BaseVersion) (inc : Int) : Option BaseVersion :=
  if is_stable v = false ∧ micro v = 0 then
    match h : get_stable v with
    | some s => bump_minor s (inc - 1)
    | none => none
  else
    replaceBase ⟨0, [major v, minor v + inc, 0], none, none, none, none⟩
termination_by (if is_stable v then 0 else 1 : Nat)
decreasing_by
  rename_i hguard
  have hg : is_stable v = false := hguard.1
  unfold get_stable replaceBase at h
  split at h
  · injection h with h
    subst h
    have hne : ¬(v.dev = none ∧ v.pre = none) := by
      intro hc
      simp [is_stable, is_prerelease, hc.1, hc.2] at hg
    simp [is_stable, is_prerelease, get_stableBase, hne]
  · cases h

/-- Embeds `Version.bump_micro`; the guard is only "not stable". -/
def bump_micro (v : BaseVersion) (inc : Int) : Option BaseVersion :=
  if is_stable v = false then
    match h : get_stable v with
    | some s => bump_micro s (inc - 1)
    | none => none
  else
    replaceBase ⟨0, [major v, minor v, micro v + inc], none, none, none, none⟩
termination_by (if is_stable v then 0 else 1 : Nat)
decreasing_by
  rename_i hguard
  have hg : is_stable v = false := hguard
  unfold get_stable replaceBase at h
  split at h
  · injection h with h
    subst h
    have hne : ¬(v.dev = none ∧ v.pre = none) := by
      intro hc
      simp [is_stable, is_prerelease, hc.1, hc.2] at hg
    simp [is_stable, is_prerelease, get_stableBase, hne]
  · cases h

/-- Embeds `Version.bump_release`: dispatch on the release part,
defaulting to micro (the source falls through to `bump_micro` for any
other selector, including `post`). -/
def bump_release (v : BaseVersion) (release_type : ReleasePart) (inc : Int) :
    Option BaseVersion :=
  if release_type = ReleasePart.major then bump_major v inc
  else if release_type = ReleasePart.minor then bump_minor v inc
  else bump_micro v inc

/-- Embeds `Version.bump_postrelease`: next post number is
`max(current, 1) + inc` when a post marker exists, else `max(inc, 1)`;
the release sequence is kept and pre/dev/local are cleared. -/
def bump_postrelease (v : BaseVersion) (inc : Int) : Option BaseVersion :=
  let post : Int :=
    match v.post with
    | some bp => max bp 1 + inc
    | none => max inc 1
  replaceBase ⟨0, v.release, none, some post, none, none⟩

/-- Embeds `Version.bump_prerelease`: pick the target tag (explicit
argument, else the current tag, else rc) and the tentative increment
(`inc`, or `max(current, 1) + inc` when a pre marker exists); build the
candidate by substituting the pre marker; when the candidate compares
below the original, fall back to bumping the stabilized release (the
tag then honours only the explicit argument, defaulting to rc); when
the resolved tag differs from the original one, the increment resets to
`inc`; finally rebuild with epoch 0 and no post/dev/local. -/
def bump_prerelease (v : BaseVersion) (inc : Int) (release_type : Option PreTag)
    (bumpRel : ReleasePart) : Option BaseVersion :=
  let ptype0 : PreTag :=
    match release_type with
    | some t => t
    | none =>
      match prerelease_type v with
      | some t => t
      | none => PreTag.rc
  let increment : Int :=
    match v.pre with
    | none => inc
    | some p => max p.2 1 + inc
  match replaceBase (copy_base v none none none (some (ptype0, increment)) none none) with
  | none => none
  | some new_version =>
    let step : PreTag × Option BaseVersion :=
      if cmpVersion new_version v = Ordering.lt then
        (match release_type with
          | some t => t
          | none => PreTag.rc,
         match get_stable v with
         | some s => bump_release s bumpRel 1
         | none => none)
      else (ptype0, some new_version)
    match step.2 with
    | none => none
    | some nv =>
      let increment2 : Int :=
        if some step.1 ≠ prerelease_type v then inc else increment
      replaceBase ⟨0, nv.release, some (step.1, increment2), none, none, none⟩

/-- Modelled from the spec: normalization of one chunk of a raw local
string, as `packaging`'s parse performs it (all-digit chunks become
numbers, others are lowercased). -/
def mkLocalSeg (s : String) : LocalSeg :=
  let t := s.map Char.toLower
  if t ≠ "" ∧ t.all Char.isDigit then .num ((t.toNat?.getD 0 : Nat) : Int)
  else .str t

/-- Modelled from the spec: parse of a raw local string into segments,
splitting on the separators `-`, `_`, `.`.  Chunks that violate the
grammar survive here as invalid segments and are rejected by
`validBase` (the Python render/re-parse raises `VersionError`). -/
def parseLocalString (s : String) : List LocalSeg :=
  (s.split (fun c => c = '-' ∨ c = '_' ∨ c = '.')).map mkLocalSeg

/-- Embeds `Version.replace`: the release is always rebuilt as the
`(major, minor, micro)` triple with passed components overriding; the
pre marker is set from alpha, then beta, then rc (later assignments
overwrite earlier ones); dev/post/epoch/local are set when passed;
everything else is kept via `_copy_base`.  Argument order follows the
source signature: major, minor, micro, alpha, beta, rc, dev, post,
epoch, local. -/
def replace (v : BaseVersion) (majorA minorA microA alphaA betaA rcA devA postA
    epochA : Option Int) (loclA : Option String) : Option BaseVersion :=
  let release : List Int :=
    [majorA.getD (major v), minorA.getD (minor v), microA.getD (micro v)]
  let preArg : Option (PreTag × Int) :=
    match alphaA with
    | some n => some (PreTag.alpha, n)
    | none => none
  let preArg : Option (PreTag × Int) :=
    match betaA with
    | some n => some (PreTag.beta, n)
    | none => preArg
  let preArg : Option (PreTag × Int) :=
    match rcA with
    | some n => some (PreTag.rc, n)
    | none => preArg
  let loclArg : Option (List LocalSeg) := loclA.map parseLocalString
  replaceBase (copy_base v epochA (some release) devA preArg postA loclArg)

/-- Embeds `Version.bump_dev`: four cases in source order — already a
dev release (increment the dev number in place via `replace`); target
is or should become a post release (`bump_postrelease` then attach
`dev = inc - 1`); stable (bump the selected release part then attach
`dev = inc - 1`); otherwise a pre release (just attach
`dev = inc - 1`). -/
def bump_dev (v : BaseVersion) (inc : Int) (bumpRel : ReleasePart) :
    Option BaseVersion :=
  if is_devrelease v then
    replace v none none none none none none (some (v.dev.getD 0 + inc)) none none none
  else if bumpRel = ReleasePart.post ∨ is_postrelease v then
    match bump_postrelease v 1 with
    | some u => replace u none none none none none none (some (inc - 1)) none none none
    | none => none
  else if is_stable v then
    match bump_release v bumpRel 1 with
    | some u => replace u none none none none none none (some (inc - 1)) none none none
    | none => none
  else
    replace v none none none none none none (some (inc - 1)) none none none

end Version

/-- Consequence of `replaceBase` succeeding: the candidate was valid and
is returned unchanged. -/
theorem replaceBase_some_imp {b c : BaseVersion} (h : replaceBase b = some c) :
    validBase b = true ∧ c = b := by
  unfold replaceBase at h
  by_cases hv : validBase b = true
  · simp [hv] at h
    exact ⟨hv, h.symm⟩
  · simp [hv] at h

/-- A valid candidate passes `_replace` unchanged. -/
theorem replaceBase_of_valid {b : BaseVersion} (h : validBase b = true) :
    replaceBase b = some b := by
  unfold replaceBase
  simp [h]

/-- The stable base is stable. -/
theorem is_stable_get_stableBase (v : BaseVersion) :
    Version.is_stable (Version.get_stableBase v) = true := rfl

namespace Version

/-- Unpacking of `validBase` into its component facts. -/
theorem valid_split {v : BaseVersion} (hv : validBase v = true) :
    0 ≤ v.epoch ∧ v.release ≠ [] ∧ (∀ x ∈ v.release, 0 ≤ x) ∧
      (∀ p, v.pre = some p → 0 ≤ p.2) ∧ (∀ n, v.post = some n → 0 ≤ n) ∧
      (∀ n, v.dev = some n → 0 ≤ n) ∧ validLocl v.locl = true := by
  simp only [validBase, Bool.and_eq_true, decide_eq_true_eq, List.all_eq_true,
    decide_eq_true_eq] at hv
  obtain ⟨⟨⟨⟨⟨⟨hep, hne⟩, hrel⟩, hpre⟩, hpost⟩, hdev⟩, hloc⟩ := hv
  refine ⟨hep, hne, fun x hx => by simpa using hrel x hx, ?_, ?_, ?_, hloc⟩
  · intro p hp
    rw [hp] at hpre
    simpa using hpre
  · intro n hn
    rw [hn] at hpost
    simpa using hpost
  · intro n hn
    rw [hn] at hdev
    simpa using hdev

/-- Non-negativity of the `major`/`minor`/`micro` properties of a valid
version. -/
theorem valid_mmm {v : BaseVersion} (hv : validBase v = true) :
    0 ≤ major v ∧ 0 ≤ minor v ∧ 0 ≤ micro v := by
  obtain ⟨-, -, hrel, -⟩ := valid_split hv
  refine ⟨?_, ?_, ?_⟩
  · unfold major
    cases hr : v.release with
    | nil => simp
    | cons a as => simpa using hrel a (by rw [hr]; exact List.mem_cons_self a as)
  · unfold minor
    cases hr : v.release with
    | nil => simp
    | cons a as =>
      cases has : as with
      | nil => simp
      | cons b bs => simpa using hrel b (by rw [hr, has]; simp)
  · unfold micro
    cases hr : v.release with
    | nil => simp
    | cons a as =>
      cases has : as with
      | nil => simp
      | cons b bs =>
        cases hbs : bs with
        | nil => simp
        | cons c cs => simpa using hrel c (by rw [hr, has, hbs]; simp)

/-- Validity of a version implies validity of its stabilization: the
stable base keeps non-negative components. -/
theorem valid_get_stableBase {v : BaseVersion} (hv : validBase v = true) :
    validBase (get_stableBase v) = true := by
  obtain ⟨h0, h1, h2⟩ := valid_mmm hv
  simp [validBase, get_stableBase, validLocl, h0, h1, h2]

/-- For a valid version `get_stable` succeeds and returns the stable
base. -/
theorem get_stable_of_valid {v : BaseVersion} (hv : validBase v = true) :
    get_stable v = some (get_stableBase v) := by
  unfold get_stable
  exact replaceBase_of_valid (valid_get_stableBase hv)

/-- Unfolding of `bump_major` outside the recursion guard. -/
theorem bump_major_direct {v : BaseVersion} (inc : Int)
    (h : ¬(is_stable v = false ∧ minor v = 0 ∧ micro v = 0)) :
    bump_major v inc = replaceBase ⟨0, [major v + inc, 0, 0], none, none, none, none⟩ := by
  rw [bump_major]
  simp [h]

/-- Unfolding of `bump_major` through the recursion guard: one
recursive step on the stabilized version, which is stable, so the
result bumps with `inc - 1`. -/
theorem bump_major_recurse {v : BaseVersion} (inc : Int)
    (h : is_stable v = false ∧ minor v = 0 ∧ micro v = 0)
    (hv : validBase v = true) :
    bump_major v inc =
      replaceBase ⟨0, [major v + (inc - 1), 0, 0], none, none, none, none⟩ := by
  rw [bump_major, if_pos h]
  split
  next s hs =>
    rw [get_stable_of_valid hv] at hs
    injection hs with hs
    subst hs
    rw [bump_major_direct (inc - 1) (by simp [is_stable_get_stableBase])]
    rfl
  next hs =>
    rw [get_stable_of_valid hv] at hs
    exact absurd hs (by simp)

/-- Unfolding of `bump_minor` outside the recursion guard. -/
theorem bump_minor_direct {v : BaseVersion} (inc : Int)
    (h : ¬(is_stable v = false ∧ micro v = 0)) :
    bump_minor v inc = replaceBase ⟨0, [major v, minor v + inc, 0], none, none, none, none⟩ := by
  rw [bump_minor]
  simp [h]

/-- Unfolding of `bump_minor` through the recursion guard. -/
theorem bump_minor_recurse {v : BaseVersion} (inc : Int)
    (h : is_stable v = false ∧ micro v = 0) (hv : validBase v = true) :
    bump_minor v inc =
      replaceBase ⟨0, [major v, minor v + (inc - 1), 0], none, none, none, none⟩ := by
  rw [bump_minor, if_pos h]
  split
  next s hs =>
    rw [get_stable_of_valid hv] at hs
    injection hs with hs
    subst hs
    rw [bump_minor_direct (inc - 1) (by simp [is_stable_get_stableBase])]
    rfl
  next hs =>
    rw [get_stable_of_valid hv] at hs
    exact absurd hs (by simp)

/-- Unfolding of `bump_micro` on a stable version. -/
theorem bump_micro_direct {v : BaseVersion} (inc : Int)
    (h : ¬(is_stable v = false)) :
    bump_micro v inc =
      replaceBase ⟨0, [major v, minor v, micro v + inc], none, none, none, none⟩ := by
  rw [bump_micro]
  simp [h]

/-- Unfolding of `bump_micro` on a non-stable version. -/
theorem bump_micro_recurse {v : BaseVersion} (inc : Int)
    (h : is_stable v = false) (hv : validBase v = true) :
    bump_micro v inc =
      replaceBase ⟨0, [major v, minor v, micro v + (inc - 1)], none, none, none, none⟩ := by
  rw [bump_micro, if_pos h]
  split
  next s hs =>
    rw [get_stable_of_valid hv] at hs
    injection hs with hs
    subst hs
    rw [bump_micro_direct (inc - 1) (by simp [is_stable_get_stableBase])]
    rfl
  next hs =>
    rw [get_stable_of_valid hv] at hs
    exact absurd hs (by simp)

end Version

/-- Comparing an integer with itself. -/
theorem cmpInt_self (a : Int) : cmpInt a a = .eq := by
  simp [cmpInt]

/-- Comparing strictly smaller integers. -/
theorem cmpInt_lt {a b : Int} (h : a < b) : cmpInt a b = .lt := by
  simp [cmpInt, h]

/-- Comparing strictly larger integers. -/
theorem cmpInt_gt {a b : Int} (h : b < a) : cmpInt a b = .gt := by
  unfold cmpInt
  rw [if_neg (by omega), if_neg (by omega)]

/-- Composition after an equal key. -/
theorem ordering_eq_then (o : Ordering) : Ordering.eq.then o = o := rfl

/-- Composition after a smaller key. -/
theorem ordering_lt_then (o : Ordering) : Ordering.lt.then o = .lt := rfl

/-- Composition after a larger key. -/
theorem ordering_gt_then (o : Ordering) : Ordering.gt.then o = .gt := rfl

/-- Lexicographic comparison of a list of integers with itself. -/
theorem cmpLexBy_cmpInt_self (xs : List Int) : cmpLexBy cmpInt xs xs = .eq := by
  induction xs with
  | nil => rfl
  | cons a as ih => simp [cmpLexBy, cmpInt_self, ih, ordering_eq_then]

/-- A release of at most three components trims like its zero-padded
`(major, minor, micro)` triple. -/
theorem trim_pad3 {r : List Int} (h : r.length ≤ 3) :
    trimRelease r = trimRelease [r.getD 0 0, r.getD 1 0, r.getD 2 0] := by
  rcases r with _ | ⟨a, _ | ⟨b, _ | ⟨c, _ | ⟨d, t⟩⟩⟩⟩
  · rfl
  · rfl
  · rfl
  · rfl
  · simp only [List.length_cons] at h
    omega

/-- A triple with non-zero last component does not trim. -/
theorem trim_triple_ne {a b c : Int} (hc : c ≠ 0) : trimRelease [a, b, c] = [a, b, c] := by
  simp [trimRelease, hc]

/-- Strict release comparison when only the third component grows. -/
theorem relLt_third {a b c c' : Int} (hc : 0 ≤ c) (h : c < c') :
    cmpLexBy cmpInt (trimRelease [a, b, c]) (trimRelease [a, b, c']) = .lt := by
  have hc' : c' ≠ 0 := by omega
  rw [trim_triple_ne hc']
  by_cases h3 : c = 0
  · subst h3
    by_cases h2 : b = 0
    · subst h2
      by_cases h1 : a = 0
      · subst h1
        simp [trimRelease, cmpLexBy]
      · rw [show trimRelease [a, 0, 0] = [a] by simp [trimRelease, h1]]
        simp [cmpLexBy, cmpInt_self, ordering_eq_then]
    · rw [show trimRelease [a, b, 0] = [a, b] by simp [trimRelease, h2]]
      simp [cmpLexBy, cmpInt_self, ordering_eq_then]
  · rw [trim_triple_ne h3]
    simp [cmpLexBy, cmpInt_self, cmpInt_lt h, ordering_eq_then, ordering_lt_then]

/-- Strict release comparison when the second component grows (target
third component zero). -/
theorem relLt_second {a b c b' : Int} (hb : 0 ≤ b) (h : b < b') :
    cmpLexBy cmpInt (trimRelease [a, b, c]) (trimRelease [a, b', 0]) = .lt := by
  have hb' : b' ≠ 0 := by omega
  rw [show trimRelease [a, b', 0] = [a, b'] by simp [trimRelease, hb']]
  by_cases h3 : c = 0
  · subst h3
    by_cases h2 : b = 0
    · subst h2
      by_cases h1 : a = 0
      · subst h1
        simp [trimRelease, cmpLexBy]
      · rw [show trimRelease [a, 0, 0] = [a] by simp [trimRelease, h1]]
        simp [cmpLexBy, cmpInt_self, ordering_eq_then]
    · rw [show trimRelease [a, b, 0] = [a, b] by simp [trimRelease, h2]]
      simp [cmpLexBy, cmpInt_self, cmpInt_lt h, ordering_eq_then, ordering_lt_then]
  · rw [trim_triple_ne h3]
    simp [cmpLexBy, cmpInt_self, cmpInt_lt h, ordering_eq_then, ordering_lt_then]

/-- Strict release comparison when the first component grows (target
lower components zero). -/
theorem relLt_first {a b c a' : Int} (ha : 0 ≤ a) (h : a < a') :
    cmpLexBy cmpInt (trimRelease [a, b, c]) (trimRelease [a', 0, 0]) = .lt := by
  have ha' : a' ≠ 0 := by omega
  rw [show trimRelease [a', 0, 0] = [a'] by simp [trimRelease, ha']]
  by_cases h3 : c = 0
  · subst h3
    by_cases h2 : b = 0
    · subst h2
      by_cases h1 : a = 0
      · subst h1
        simp [trimRelease, cmpLexBy]
      · rw [show trimRelease [a, 0, 0] = [a] by simp [trimRelease, h1]]
        simp [cmpLexBy, cmpInt_lt h, ordering_lt_then]
    · rw [show trimRelease [a, b, 0] = [a, b] by simp [trimRelease, h2]]
      simp [cmpLexBy, cmpInt_lt h, ordering_lt_then]
  · rw [trim_triple_ne h3]
    simp [cmpLexBy, cmpInt_lt h, ordering_lt_then]

/-- Pre-release key of a version carrying a pre marker. -/
theorem preKey_some {v : BaseVersion} {p : PreTag × Int} (h : v.pre = some p) :
    preKey v = .val p.1 p.2 := by
  rcases v with ⟨e, r, pr, po, d, l⟩
  simp only at h
  subst h
  rfl

/-- Pre-release key of a pure dev release. -/
theorem preKey_negInf {v : BaseVersion} (hp : v.pre = none) (hpo : v.post = none)
    {d : Int} (hd : v.dev = some d) : preKey v = .negInf := by
  rcases v with ⟨e, r, pr, po, dv, l⟩
  simp only at hp hpo hd
  subst hp
  subst hpo
  subst hd
  rfl

/-- Pre-release key of a version with no pre marker but a post
marker. -/
theorem preKey_inf_of_post {v : BaseVersion} (hp : v.pre = none) {n : Int}
    (hpo : v.post = some n) : preKey v = .inf := by
  rcases v with ⟨e, r, pr, po, dv, l⟩
  simp only at hp hpo
  subst hp
  subst hpo
  rfl

/-- Pre-release key of a version with neither pre nor dev marker. -/
theorem preKey_inf_of_nodev {v : BaseVersion} (hp : v.pre = none)
    (hd : v.dev = none) : preKey v = .inf := by
  rcases v with ⟨e, r, pr, po, dv, l⟩
  simp only at hp hd
  subst hp
  subst hd
  rcases po with _ | n <;> rfl

/-- Any pre marker sorts below the absent-marker key. -/
theorem cmpPreKey_val_inf (t : PreTag) (n : Int) : cmpPreKey (.val t n) .inf = .lt := rfl

/-- The pure-dev key sorts below the absent-marker key. -/
theorem cmpPreKey_negInf_inf : cmpPreKey .negInf .inf = .lt := rfl

/-- The pure-dev key sorts below any pre marker. -/
theorem cmpPreKey_negInf_val (t : PreTag) (n : Int) :
    cmpPreKey .negInf (.val t n) = .lt := rfl

/-- Any pre marker sorts above the pure-dev key. -/
theorem cmpPreKey_val_negInf (t : PreTag) (n : Int) :
    cmpPreKey (.val t n) .negInf = .gt := rfl

/-- The absent-marker key sorts above any pre marker. -/
theorem cmpPreKey_inf_val (t : PreTag) (n : Int) :
    cmpPreKey .inf (.val t n) = .gt := rfl

/-- Same-tag pre markers compare by number. -/
theorem cmpPreKey_val_val (t : PreTag) (n n' : Int) :
    cmpPreKey (.val t n) (.val t n') = cmpInt n n' := by
  simp [cmpPreKey, cmpInt_self, ordering_eq_then]

/-- A pre-release key compares equal to itself. -/
theorem cmpPreKey_self (k : PreKey) : cmpPreKey k k = .eq := by
  cases k <;> simp [cmpPreKey, cmpInt_self, ordering_eq_then]

/-- A post key compares equal to itself. -/
theorem cmpPost_self (o : Option Int) : cmpPost o o = .eq := by
  cases o <;> simp [cmpPost, cmpInt_self]

/-- A dev key compares equal to itself. -/
theorem cmpDev_self (o : Option Int) : cmpDev o o = .eq := by
  cases o <;> simp [cmpDev, cmpInt_self]

/-- Strict version comparison decided at the release slot. -/
theorem cmpVersion_lt_of_release {v w : BaseVersion}
    (he : cmpInt v.epoch w.epoch = .eq)
    (hr : cmpLexBy cmpInt (trimRelease v.release) (trimRelease w.release) = .lt) :
    cmpVersion v w = .lt := by
  unfold cmpVersion
  rw [he, hr]
  rfl

/-- Strict version comparison decided at the pre slot. -/
theorem cmpVersion_lt_of_pre {v w : BaseVersion}
    (he : cmpInt v.epoch w.epoch = .eq)
    (hr : cmpLexBy cmpInt (trimRelease v.release) (trimRelease w.release) = .eq)
    (hp : cmpPreKey (preKey v) (preKey w) = .lt) :
    cmpVersion v w = .lt := by
  unfold cmpVersion
  rw [he, hr, hp]
  rfl

/-- Strict version comparison decided at the post slot. -/
theorem cmpVersion_lt_of_post {v w : BaseVersion}
    (he : cmpInt v.epoch w.epoch = .eq)
    (hr : cmpLexBy cmpInt (trimRelease v.release) (trimRelease w.release) = .eq)
    (hp : cmpPreKey (preKey v) (preKey w) = .eq)
    (hpo : cmpPost v.post w.post = .lt) :
    cmpVersion v w = .lt := by
  unfold cmpVersion
  rw [he, hr, hp, hpo]
  rfl

/-- Strict version comparison decided at the dev slot. -/
theorem cmpVersion_lt_of_dev {v w : BaseVersion}
    (he : cmpInt v.epoch w.epoch = .eq)
    (hr : cmpLexBy cmpInt (trimRelease v.release) (trimRelease w.release) = .eq)
    (hp : cmpPreKey (preKey v) (preKey w) = .eq)
    (hpo : cmpPost v.post w.post = .eq)
    (hd : cmpDev v.dev w.dev = .lt) :
    cmpVersion v w = .lt := by
  unfold cmpVersion
  rw [he, hr, hp, hpo, hd]
  rfl

/-- Reverse strict version comparison decided at the pre slot (used to
show a pre-marker substitution did not go backwards). -/
theorem cmpVersion_gt_of_pre {v w : BaseVersion}
    (he : cmpInt v.epoch w.epoch = .eq)
    (hr : cmpLexBy cmpInt (trimRelease v.release) (trimRelease w.release) = .eq)
    (hp : cmpPreKey (preKey v) (preKey w) = .gt) :
    cmpVersion v w = .gt := by
  unfold cmpVersion
  rw [he, hr, hp]
  rfl

namespace Version

/-- Version-level restatement of `trim_pad3`: a release of at most
three components trims like the `(major, minor, micro)` triple. -/
theorem trim_pad3V {v : BaseVersion} (h : v.release.length ≤ 3) :
    trimRelease v.release = trimRelease [major v, minor v, micro v] :=
  trim_pad3 h

/-- The pre-release key of a non-stable version (excluding the pure
dev+post combination) sorts strictly below the absent-marker key. -/
theorem preKey_lt_inf_of_unstable {v : BaseVersion} (hst : is_stable v = false)
    (hx : ¬(v.pre = none ∧ v.post ≠ none ∧ v.dev ≠ none)) :
    cmpPreKey (preKey v) PreKey.inf = .lt := by
  cases hpre : v.pre with
  | some p =>
    rw [preKey_some hpre]
    exact cmpPreKey_val_inf p.1 p.2
  | none =>
    have hdev : v.dev ≠ none := by
      intro hd
      simp [is_stable, is_prerelease, hpre, hd] at hst
    obtain ⟨d, hd⟩ := Option.ne_none_iff_exists'.mp hdev
    have hpo : v.post = none := by
      by_contra hpo
      exact hx ⟨hpre, hpo, hdev⟩
    rw [preKey_negInf hpre hpo hd]
    exact cmpPreKey_negInf_inf

/-- Monotonicity of `bump_major` for `inc ≥ 1` on valid versions with
epoch 0, at most three release components, and not a pure dev+post
combination (where the recursion path strips the post marker and goes
backwards). -/
theorem mono_major {v : BaseVersion} {inc : Int} (hv : validBase v = true)
    (he : v.epoch = 0) (hl : v.release.length ≤ 3) (hinc : 1 ≤ inc)
    (hx : ¬(v.pre = none ∧ v.post ≠ none ∧ v.dev ≠ none)) :
    ∃ w, bump_major v inc = some w ∧ cmpVersion v w = .lt := by
  obtain ⟨h0, h1, h2⟩ := valid_mmm hv
  by_cases hg : is_stable v = false ∧ minor v = 0 ∧ micro v = 0
  · rw [bump_major_recurse inc hg hv]
    have hvb : validBase ⟨0, [major v + (inc - 1), 0, 0], none, none, none, none⟩ = true := by
      simp [validBase, validLocl]
      omega
    rw [replaceBase_of_valid hvb]
    refine ⟨_, rfl, ?_⟩
    by_cases hone : inc = 1
    · subst hone
      have e : major v + (1 - 1 : Int) = major v := by ring
      apply cmpVersion_lt_of_pre
      · rw [he]
        exact cmpInt_self 0
      · rw [trim_pad3V hl, e, hg.2.1, hg.2.2]
        exact cmpLexBy_cmpInt_self (trimRelease [major v, 0, 0])
      · exact preKey_lt_inf_of_unstable hg.1 hx
    · apply cmpVersion_lt_of_release
      · rw [he]
        exact cmpInt_self 0
      · rw [trim_pad3V hl]
        exact relLt_first h0 (by omega)
  · rw [bump_major_direct inc hg]
    have hvb : validBase ⟨0, [major v + inc, 0, 0], none, none, none, none⟩ = true := by
      simp [validBase, validLocl]
      omega
    rw [replaceBase_of_valid hvb]
    refine ⟨_, rfl, ?_⟩
    apply cmpVersion_lt_of_release
    · rw [he]
      exact cmpInt_self 0
    · rw [trim_pad3V hl]
      exact relLt_first h0 (by omega)

end Version

namespace Version

/-- Monotonicity of `bump_minor` under the same side conditions as
`mono_major`. -/
theorem mono_minor {v : BaseVersion} {inc : Int} (hv : validBase v = true)
    (he : v.epoch = 0) (hl : v.release.length ≤ 3) (hinc : 1 ≤ inc)
    (hx : ¬(v.pre = none ∧ v.post ≠ none ∧ v.dev ≠ none)) :
    ∃ w, bump_minor v inc = some w ∧ cmpVersion v w = .lt := by
  obtain ⟨h0, h1, h2⟩ := valid_mmm hv
  by_cases hg : is_stable v = false ∧ micro v = 0
  · rw [bump_minor_recurse inc hg hv]
    have hvb : validBase ⟨0, [major v, minor v + (inc - 1), 0], none, none, none, none⟩ = true := by
      simp [validBase, validLocl]
      omega
    rw [replaceBase_of_valid hvb]
    refine ⟨_, rfl, ?_⟩
    by_cases hone : inc = 1
    · subst hone
      have e : minor v + (1 - 1 : Int) = minor v := by ring
      apply cmpVersion_lt_of_pre
      · rw [he]
        exact cmpInt_self 0
      · rw [trim_pad3V hl, e, hg.2]
        exact cmpLexBy_cmpInt_self (trimRelease [major v, minor v, 0])
      · exact preKey_lt_inf_of_unstable hg.1 hx
    · apply cmpVersion_lt_of_release
      · rw [he]
        exact cmpInt_self 0
      · rw [trim_pad3V hl]
        exact relLt_second h1 (by omega)
  · rw [bump_minor_direct inc hg]
    have hvb : validBase ⟨0, [major v, minor v + inc, 0], none, none, none, none⟩ = true := by
      simp [validBase, validLocl]
      omega
    rw [replaceBase_of_valid hvb]
    refine ⟨_, rfl, ?_⟩
    apply cmpVersion_lt_of_release
    · rw [he]
      exact cmpInt_self 0
    · rw [trim_pad3V hl]
      exact relLt_second h1 (by omega)

/-- Monotonicity of `bump_micro` under the same side conditions as
`mono_major`. -/
theorem mono_micro {v : BaseVersion} {inc : Int} (hv : validBase v = true)
    (he : v.epoch = 0) (hl : v.release.length ≤ 3) (hinc : 1 ≤ inc)
    (hx : ¬(v.pre = none ∧ v.post ≠ none ∧ v.dev ≠ none)) :
    ∃ w, bump_micro v inc = some w ∧ cmpVersion v w = .lt := by
  obtain ⟨h0, h1, h2⟩ := valid_mmm hv
  by_cases hg : is_stable v = false
  · rw [bump_micro_recurse inc hg hv]
    have hvb : validBase ⟨0, [major v, minor v, micro v + (inc - 1)], none, none, none, none⟩ = true := by
      simp [validBase, validLocl]
      omega
    rw [replaceBase_of_valid hvb]
    refine ⟨_, rfl, ?_⟩
    by_cases hone : inc = 1
    · subst hone
      have e : micro v + (1 - 1 : Int) = micro v := by ring
      apply cmpVersion_lt_of_pre
      · rw [he]
        exact cmpInt_self 0
      · rw [trim_pad3V hl, e]
        exact cmpLexBy_cmpInt_self (trimRelease [major v, minor v, micro v])
      · exact preKey_lt_inf_of_unstable hg hx
    · apply cmpVersion_lt_of_release
      · rw [he]
        exact cmpInt_self 0
      · rw [trim_pad3V hl]
        exact relLt_third h2 (by omega)
  · rw [bump_micro_direct inc hg]
    have hvb : validBase ⟨0, [major v, minor v, micro v + inc], none, none, none, none⟩ = true := by
      simp [validBase, validLocl]
      omega
    rw [replaceBase_of_valid hvb]
    refine ⟨_, rfl, ?_⟩
    apply cmpVersion_lt_of_release
    · rw [he]
      exact cmpInt_self 0
    · rw [trim_pad3V hl]
      exact relLt_third h2 (by omega)

/-- Monotonicity of `bump_release` for every selector, by dispatch. -/
theorem mono_release {v : BaseVersion} {inc : Int} (rt : ReleasePart)
    (hv : validBase v = true) (he : v.epoch = 0) (hl : v.release.length ≤ 3)
    (hinc : 1 ≤ inc)
    (hx : ¬(v.pre = none ∧ v.post ≠ none ∧ v.dev ≠ none)) :
    ∃ w, bump_release v rt inc = some w ∧ cmpVersion v w = .lt := by
  cases rt with
  | major => exact mono_major hv he hl hinc hx
  | minor => exact mono_minor hv he hl hinc hx
  | micro => exact mono_micro hv he hl hinc hx
  | post => exact mono_micro hv he hl hinc hx

end Version

/-- Introduction rule for `validBase` from component facts. -/
theorem validBase_build (e : Int) (rel : List Int) (pr : Option (PreTag × Int))
    (po dv : Option Int) (lo : Option (List LocalSeg))
    (h1 : 0 ≤ e) (h2 : rel ≠ []) (h3 : ∀ x ∈ rel, 0 ≤ x)
    (h4 : ∀ p, pr = some p → 0 ≤ p.2) (h5 : ∀ n, po = some n → 0 ≤ n)
    (h6 : ∀ n, dv = some n → 0 ≤ n) (h7 : validLocl lo = true) :
    validBase ⟨e, rel, pr, po, dv, lo⟩ = true := by
  unfold validBase
  simp only [Bool.and_eq_true, decide_eq_true_eq, List.all_eq_true]
  refine ⟨⟨⟨⟨⟨⟨h1, h2⟩, fun x hx => by simpa using h3 x hx⟩, ?_⟩, ?_⟩, ?_⟩, h7⟩
  · cases hpr : pr with
    | none => simp
    | some p => simpa using h4 p hpr
  · cases hpo : po with
    | none => simp
    | some n => simpa using h5 n hpo
  · cases hdv : dv with
    | none => simp
    | some n => simpa using h6 n hdv

namespace Version

/-- Unfolding of `bump_postrelease` with the post-number computation
exposed. -/
theorem bump_postrelease_eq (v : BaseVersion) (inc : Int) :
    bump_postrelease v inc = replaceBase ⟨0, v.release, none,
      some (match v.post with | some bp => max bp 1 + inc | none => max inc 1),
      none, none⟩ := rfl

/-- Monotonicity of `bump_postrelease` for `inc ≥ 1` on valid versions
with epoch 0 (the release sequence is kept verbatim, so no length
restriction is needed). -/
theorem mono_post {v : BaseVersion} {inc : Int} (hv : validBase v = true)
    (he : v.epoch = 0) (hinc : 1 ≤ inc) :
    ∃ w, bump_postrelease v inc = some w ∧ cmpVersion v w = .lt := by
  obtain ⟨hep, hne, hrel, hprev, hpostv, hdevv, hloc⟩ := valid_split hv
  cases hpo : v.post with
  | some p =>
    have hp0 : 0 ≤ p := hpostv p hpo
    have heq : bump_postrelease v inc =
        replaceBase ⟨0, v.release, none, some (max p 1 + inc), none, none⟩ := by
      rw [bump_postrelease_eq, hpo]
    have hvb : validBase ⟨0, v.release, none, some (max p 1 + inc), none, none⟩ = true :=
      validBase_build _ _ _ _ _ _ (by omega) hne hrel (by simp)
        (fun n hn => by injection hn with hn; omega) (by simp) (by simp [validLocl])
    rw [heq, replaceBase_of_valid hvb]
    refine ⟨_, rfl, ?_⟩
    cases hpre : v.pre with
    | some q =>
      apply cmpVersion_lt_of_pre
      · rw [he]
        exact cmpInt_self 0
      · exact cmpLexBy_cmpInt_self (trimRelease v.release)
      · rw [preKey_some hpre]
        exact cmpPreKey_val_inf q.1 q.2
    | none =>
      apply cmpVersion_lt_of_post
      · rw [he]
        exact cmpInt_self 0
      · exact cmpLexBy_cmpInt_self (trimRelease v.release)
      · rw [preKey_inf_of_post hpre hpo]
        exact cmpPreKey_self .inf
      · rw [hpo]
        exact cmpInt_lt (by omega)
  | none =>
    have heq : bump_postrelease v inc =
        replaceBase ⟨0, v.release, none, some (max inc 1), none, none⟩ := by
      rw [bump_postrelease_eq, hpo]
    have hvb : validBase ⟨0, v.release, none, some (max inc 1), none, none⟩ = true :=
      validBase_build _ _ _ _ _ _ (by omega) hne hrel (by simp)
        (fun n hn => by injection hn with hn; omega) (by simp) (by simp [validLocl])
    rw [heq, replaceBase_of_valid hvb]
    refine ⟨_, rfl, ?_⟩
    cases hpre : v.pre with
    | some q =>
      apply cmpVersion_lt_of_pre
      · rw [he]
        exact cmpInt_self 0
      · exact cmpLexBy_cmpInt_self (trimRelease v.release)
      · rw [preKey_some hpre]
        exact cmpPreKey_val_inf q.1 q.2
    | none =>
      cases hdv : v.dev with
      | some d =>
        apply cmpVersion_lt_of_pre
        · rw [he]
          exact cmpInt_self 0
        · exact cmpLexBy_cmpInt_self (trimRelease v.release)
        · rw [preKey_negInf hpre hpo hdv]
          exact cmpPreKey_negInf_inf
      | none =>
        apply cmpVersion_lt_of_post
        · rw [he]
          exact cmpInt_self 0
        · exact cmpLexBy_cmpInt_self (trimRelease v.release)
        · rw [preKey_inf_of_nodev hpre hdv]
          exact cmpPreKey_self .inf
        · rw [hpo]
          rfl

end Version

namespace Version

/-- Variant of `preKey_some` with the marker components exposed. -/
theorem preKey_some2 {v : BaseVersion} {t : PreTag} {n : Int}
    (h : v.pre = some (t, n)) : preKey v = .val t n :=
  preKey_some h

/-- Evaluation of `bump_prerelease` (default arguments) on a version
carrying a pre marker: the candidate replaces the marker by
`(same tag, max(n, 1) + inc)`, compares above the original, and becomes
the result after post/dev/local are cleared. -/
theorem bump_prerelease_of_pre {v : BaseVersion} {inc : Int} {t : PreTag} {n : Int}
    (hv : validBase v = true) (hpre : v.pre = some (t, n)) (hinc : 1 ≤ inc) :
    bump_prerelease v inc none .micro =
      some ⟨0, v.release, some (t, max n 1 + inc), none, none, none⟩ := by
  obtain ⟨hep, hne, hrel, hprev, hpostv, hdevv, hloc⟩ := valid_split hv
  have hpt : prerelease_type v = some t := by simp [prerelease_type, hpre]
  have hvc : validBase ⟨v.epoch, v.release, some (t, max n 1 + inc), v.post, v.dev, v.locl⟩ = true :=
    validBase_build _ _ _ _ _ _ hep hne hrel
      (fun p hp => by
        injection hp with hp
        subst hp
        simp
        omega)
      hpostv hdevv hloc
  have hgt : cmpVersion ⟨v.epoch, v.release, some (t, max n 1 + inc), v.post, v.dev, v.locl⟩ v = .gt := by
    apply cmpVersion_gt_of_pre
    · exact cmpInt_self v.epoch
    · exact cmpLexBy_cmpInt_self (trimRelease v.release)
    · rw [preKey_some2 (show BaseVersion.pre ⟨v.epoch, v.release, some (t, max n 1 + inc), v.post, v.dev, v.locl⟩ = some (t, max n 1 + inc) from rfl)]
      rw [preKey_some2 hpre, cmpPreKey_val_val]
      have hn : 0 ≤ n := by simpa using hprev (t, n) hpre
      exact cmpInt_gt (by omega)
  have hvfinal : validBase ⟨0, v.release, some (t, max n 1 + inc), none, none, none⟩ = true :=
    validBase_build _ _ _ _ _ _ (by omega) hne hrel
      (fun p hp => by
        injection hp with hp
        subst hp
        simp
        omega)
      (by simp) (by simp) (by simp [validLocl])
  simp [bump_prerelease, hpre, hpt,
    show copy_base v none none none (some (t, max n 1 + inc)) none none =
      ⟨v.epoch, v.release, some (t, max n 1 + inc), v.post, v.dev, v.locl⟩ from rfl,
    replaceBase_of_valid hvc, hgt, replaceBase_of_valid hvfinal]

end Version

namespace Version

/-- Evaluation of `bump_prerelease` (default arguments) on a pure dev
release: the rc candidate keeps the dev marker and still compares above
the original (whose pre key is bottom), so no fallback happens. -/
theorem bump_prerelease_of_devonly {v : BaseVersion} {inc : Int} {d : Int}
    (hv : validBase v = true) (hpre : v.pre = none) (hpo : v.post = none)
    (hdv : v.dev = some d) (hinc : 1 ≤ inc) :
    bump_prerelease v inc none .micro =
      some ⟨0, v.release, some (.rc, inc), none, none, none⟩ := by
  obtain ⟨hep, hne, hrel, hprev, hpostv, hdevv, hloc⟩ := valid_split hv
  have hpt : prerelease_type v = none := by simp [prerelease_type, hpre]
  have hvc : validBase ⟨v.epoch, v.release, some (.rc, inc), v.post, v.dev, v.locl⟩ = true :=
    validBase_build _ _ _ _ _ _ hep hne hrel
      (fun p hp => by
        injection hp with hp
        subst hp
        simp
        omega)
      hpostv hdevv hloc
  have hgt : cmpVersion ⟨v.epoch, v.release, some (.rc, inc), v.post, v.dev, v.locl⟩ v = .gt := by
    apply cmpVersion_gt_of_pre
    · exact cmpInt_self v.epoch
    · exact cmpLexBy_cmpInt_self (trimRelease v.release)
    · rw [preKey_some2 (show BaseVersion.pre ⟨v.epoch, v.release, some (PreTag.rc, inc), v.post, v.dev, v.locl⟩ = some (PreTag.rc, inc) from rfl)]
      rw [preKey_negInf hpre hpo hdv]
      exact cmpPreKey_val_negInf .rc inc
  have hvfinal : validBase ⟨0, v.release, some (.rc, inc), none, none, none⟩ = true :=
    validBase_build _ _ _ _ _ _ (by omega) hne hrel
      (fun p hp => by
        injection hp with hp
        subst hp
        simp
        omega)
      (by simp) (by simp) (by simp [validLocl])
  simp [bump_prerelease, hpre, hpt,
    show copy_base v none none none (some (.rc, inc)) none none =
      ⟨v.epoch, v.release, some (.rc, inc), v.post, v.dev, v.locl⟩ from rfl,
    replaceBase_of_valid hvc, hgt, replaceBase_of_valid hvfinal]

/-- Evaluation of `bump_prerelease` (default arguments) when the
version has no pre marker and its pre key is top (stable, or carrying a
post marker): the rc candidate compares below the original, so the
fallback bumps micro on the stabilized version. -/
theorem bump_prerelease_fallback {v : BaseVersion} {inc : Int}
    (hv : validBase v = true) (hpre : v.pre = none) (hpk : preKey v = .inf)
    (hinc : 1 ≤ inc) :
    bump_prerelease v inc none .micro =
      some ⟨0, [major v, minor v, micro v + 1], some (.rc, inc), none, none, none⟩ := by
  obtain ⟨hep, hne, hrel, hprev, hpostv, hdevv, hloc⟩ := valid_split hv
  obtain ⟨h0, h1, h2⟩ := valid_mmm hv
  have hpt : prerelease_type v = none := by simp [prerelease_type, hpre]
  have hvc : validBase ⟨v.epoch, v.release, some (.rc, inc), v.post, v.dev, v.locl⟩ = true :=
    validBase_build _ _ _ _ _ _ hep hne hrel
      (fun p hp => by
        injection hp with hp
        subst hp
        simp
        omega)
      hpostv hdevv hloc
  have hlt : cmpVersion ⟨v.epoch, v.release, some (.rc, inc), v.post, v.dev, v.locl⟩ v = .lt := by
    apply cmpVersion_lt_of_pre
    · exact cmpInt_self v.epoch
    · exact cmpLexBy_cmpInt_self (trimRelease v.release)
    · rw [preKey_some2 (show BaseVersion.pre ⟨v.epoch, v.release, some (PreTag.rc, inc), v.post, v.dev, v.locl⟩ = some (PreTag.rc, inc) from rfl)]
      rw [hpk]
      exact cmpPreKey_val_inf .rc inc
  have hvb2 : validBase ⟨0, [major v, minor v, micro v + 1], none, none, none, none⟩ = true := by
    simp [validBase, validLocl]
    omega
  have hbr : bump_release (get_stableBase v) ReleasePart.micro 1 =
      some ⟨0, [major v, minor v, micro v + 1], none, none, none, none⟩ := by
    have h1s : ¬(is_stable (get_stableBase v) = false) := by
      simp [is_stable_get_stableBase]
    rw [show bump_release (get_stableBase v) ReleasePart.micro 1 =
        bump_micro (get_stableBase v) 1 from rfl, bump_micro_direct 1 h1s]
    exact replaceBase_of_valid hvb2
  have hvfinal : validBase ⟨0, [major v, minor v, micro v + 1], some (.rc, inc), none, none, none⟩ = true := by
    simp [validBase, validLocl]
    omega
  simp [bump_prerelease, hpre, hpt,
    show copy_base v none none none (some (.rc, inc)) none none =
      ⟨v.epoch, v.release, some (.rc, inc), v.post, v.dev, v.locl⟩ from rfl,
    replaceBase_of_valid hvc, hlt, get_stable_of_valid hv, hbr,
    replaceBase_of_valid hvfinal]

end Version

namespace Version

/-- Monotonicity of `bump_prerelease` (default arguments) for `inc ≥ 1`
on valid versions with epoch 0 and at most three release components. -/
theorem mono_pre {v : BaseVersion} {inc : Int} (hv : validBase v = true)
    (he : v.epoch = 0) (hl : v.release.length ≤ 3) (hinc : 1 ≤ inc) :
    ∃ w, bump_prerelease v inc none .micro = some w ∧ cmpVersion v w = .lt := by
  obtain ⟨hep, hne, hrel, hprev, hpostv, hdevv, hloc⟩ := valid_split hv
  obtain ⟨h0, h1, h2⟩ := valid_mmm hv
  cases hpre : v.pre with
  | some p =>
    obtain ⟨t, n⟩ := p
    rw [bump_prerelease_of_pre hv hpre hinc]
    refine ⟨_, rfl, ?_⟩
    apply cmpVersion_lt_of_pre
    · rw [he]
      exact cmpInt_self 0
    · exact cmpLexBy_cmpInt_self (trimRelease v.release)
    · rw [preKey_some2 hpre,
        preKey_some2 (show BaseVersion.pre ⟨0, v.release, some (t, max n 1 + inc), none, none, none⟩ = some (t, max n 1 + inc) from rfl),
        cmpPreKey_val_val]
      have hn : 0 ≤ n := by simpa using hprev (t, n) hpre
      exact cmpInt_lt (by omega)
  | none =>
    cases hpo : v.post with
    | none =>
      cases hdv : v.dev with
      | some d =>
        rw [bump_prerelease_of_devonly hv hpre hpo hdv hinc]
        refine ⟨_, rfl, ?_⟩
        apply cmpVersion_lt_of_pre
        · rw [he]
          exact cmpInt_self 0
        · exact cmpLexBy_cmpInt_self (trimRelease v.release)
        · rw [preKey_negInf hpre hpo hdv,
            preKey_some2 (show BaseVersion.pre ⟨0, v.release, some (PreTag.rc, inc), none, none, none⟩ = some (PreTag.rc, inc) from rfl)]
          exact cmpPreKey_negInf_val .rc inc
      | none =>
        have hpk : preKey v = .inf := preKey_inf_of_nodev hpre hdv
        rw [bump_prerelease_fallback hv hpre hpk hinc]
        refine ⟨_, rfl, ?_⟩
        apply cmpVersion_lt_of_release
        · rw [he]
          exact cmpInt_self 0
        · rw [trim_pad3V hl]
          exact relLt_third h2 (by omega)
    | some q =>
      have hpk : preKey v = .inf := preKey_inf_of_post hpre hpo
      rw [bump_prerelease_fallback hv hpre hpk hinc]
      refine ⟨_, rfl, ?_⟩
      apply cmpVersion_lt_of_release
      · rw [he]
        exact cmpInt_self 0
      · rw [trim_pad3V hl]
        exact relLt_third h2 (by omega)

/-- Monotonicity of `bump_dev` (default release selector) for `inc ≥ 1`
on valid versions with epoch 0 and at most three release components,
excluding the pre-release-without-dev-or-post case (where the attached
dev marker makes the result sort below the original). -/
theorem mono_dev {v : BaseVersion} {inc : Int} (hv : validBase v = true)
    (he : v.epoch = 0) (hl : v.release.length ≤ 3) (hinc : 1 ≤ inc)
    (hG : v.pre = none ∨ v.dev ≠ none ∨ v.post ≠ none) :
    ∃ w, bump_dev v inc .micro = some w ∧ cmpVersion v w = .lt := by
  obtain ⟨hep, hne, hrel, hprev, hpostv, hdevv, hloc⟩ := valid_split hv
  obtain ⟨h0, h1, h2⟩ := valid_mmm hv
  cases hdv : v.dev with
  | some d =>
    have hd0 : 0 ≤ d := hdevv d hdv
    have hvw : validBase ⟨v.epoch, [major v, minor v, micro v], v.pre, v.post,
        some (d + inc), v.locl⟩ = true :=
      validBase_build _ _ _ _ _ _ hep (by simp)
        (by intro x hx; simp at hx; rcases hx with rfl | rfl | rfl <;> omega)
        hprev hpostv (fun n hn => by injection hn with hn; omega) hloc
    have hrep : replace v none none none none none none (some (d + inc)) none none none =
        replaceBase ⟨v.epoch, [major v, minor v, micro v], v.pre, v.post,
          some (d + inc), v.locl⟩ := rfl
    have hdevt : is_devrelease v = true := by simp [is_devrelease, hdv]
    have hfull : bump_dev v inc ReleasePart.micro =
        some ⟨v.epoch, [major v, minor v, micro v], v.pre, v.post, some (d + inc), v.locl⟩ := by
      simp [bump_dev, hdevt, hdv, hrep, replaceBase_of_valid hvw]
    refine ⟨_, hfull, ?_⟩
    apply cmpVersion_lt_of_dev
    · exact cmpInt_self v.epoch
    · rw [trim_pad3V hl]
      exact cmpLexBy_cmpInt_self (trimRelease [major v, minor v, micro v])
    · cases hpre : v.pre with
      | some q =>
        rw [preKey_some hpre]
        exact cmpPreKey_self _
      | none =>
        cases hpo : v.post with
        | none =>
          rw [preKey_negInf hpre hpo hdv]
          rfl
        | some q =>
          rw [preKey_inf_of_post hpre hpo]
          rfl
    · exact cmpPost_self v.post
    · rw [hdv]
      exact cmpInt_lt (by omega)
  | none =>
    cases hpo : v.post with
    | some p =>
      have hp0 : 0 ≤ p := hpostv p hpo
      have hvu : validBase ⟨0, v.release, none, some (max p 1 + 1), none, none⟩ = true :=
        validBase_build _ _ _ _ _ _ (by omega) hne hrel (by simp)
          (fun n hn => by injection hn with hn; omega) (by simp) (by simp [validLocl])
      have hpost1 : bump_postrelease v 1 = some ⟨0, v.release, none, some (max p 1 + 1), none, none⟩ := by
        rw [bump_postrelease_eq, hpo]
        exact replaceBase_of_valid hvu
      have hvw : validBase ⟨0, [major v, minor v, micro v], none, some (max p 1 + 1),
          some (inc - 1), none⟩ = true :=
        validBase_build _ _ _ _ _ _ (by omega) (by simp)
          (by intro x hx; simp at hx; rcases hx with rfl | rfl | rfl <;> omega)
          (by simp) (fun n hn => by injection hn with hn; omega)
          (fun n hn => by injection hn with hn; omega) (by simp [validLocl])
      have hrep : replace ⟨0, v.release, none, some (max p 1 + 1), none, none⟩
          none none none none none none (some (inc - 1)) none none none =
          replaceBase ⟨0, [major v, minor v, micro v], none, some (max p 1 + 1),
            some (inc - 1), none⟩ := rfl
      have hdevf : is_devrelease v = false := by simp [is_devrelease, hdv]
      have hpostt : is_postrelease v = true := by simp [is_postrelease, hpo]
      have hfull : bump_dev v inc ReleasePart.micro =
          some ⟨0, [major v, minor v, micro v], none, some (max p 1 + 1), some (inc - 1), none⟩ := by
        simp [bump_dev, hdevf, hpostt, hpost1, hrep, replaceBase_of_valid hvw]
      refine ⟨_, hfull, ?_⟩
      cases hpre : v.pre with
      | some q =>
        apply cmpVersion_lt_of_pre
        · rw [he]
          exact cmpInt_self 0
        · rw [trim_pad3V hl]
          exact cmpLexBy_cmpInt_self (trimRelease [major v, minor v, micro v])
        · rw [preKey_some hpre]
          exact cmpPreKey_val_inf q.1 q.2
      | none =>
        apply cmpVersion_lt_of_post
        · rw [he]
          exact cmpInt_self 0
        · rw [trim_pad3V hl]
          exact cmpLexBy_cmpInt_self (trimRelease [major v, minor v, micro v])
        · rw [preKey_inf_of_post hpre hpo]
          rfl
        · rw [hpo]
          exact cmpInt_lt (by omega)
    | none =>
      have hpre : v.pre = none := by
        rcases hG with h | h | h
        · exact h
        · exact absurd hdv h
        · exact absurd hpo h
      have hstable : is_stable v = true := by
        simp [is_stable, is_prerelease, hpre, hdv]
      have hvu : validBase ⟨0, [major v, minor v, micro v + 1], none, none, none, none⟩ = true := by
        simp [validBase, validLocl]
        omega
      have hbr : bump_release v ReleasePart.micro 1 =
          some ⟨0, [major v, minor v, micro v + 1], none, none, none, none⟩ := by
        rw [show bump_release v ReleasePart.micro 1 = bump_micro v 1 from rfl,
          bump_micro_direct 1 (by simp [hstable])]
        exact replaceBase_of_valid hvu
      have hvw : validBase ⟨0, [major v, minor v, micro v + 1], none, none,
          some (inc - 1), none⟩ = true :=
        validBase_build _ _ _ _ _ _ (by omega) (by simp)
          (by intro x hx; simp at hx; rcases hx with rfl | rfl | rfl <;> omega)
          (by simp) (by simp) (fun n hn => by injection hn with hn; omega)
          (by simp [validLocl])
      have hrep : replace ⟨0, [major v, minor v, micro v + 1], none, none, none, none⟩
          none none none none none none (some (inc - 1)) none none none =
          replaceBase ⟨0, [major v, minor v, micro v + 1], none, none,
            some (inc - 1), none⟩ := rfl
      have hdevf : is_devrelease v = false := by simp [is_devrelease, hdv]
      have hpostf : is_postrelease v = false := by simp [is_postrelease, hpo]
      have hfull : bump_dev v inc ReleasePart.micro =
          some ⟨0, [major v, minor v, micro v + 1], none, none, some (inc - 1), none⟩ := by
        simp [bump_dev, hdevf, hpostf, hstable, hbr, hrep, replaceBase_of_valid hvw]
      refine ⟨_, hfull, ?_⟩
      apply cmpVersion_lt_of_release
      · rw [he]
        exact cmpInt_self 0
      · rw [trim_pad3V hl]
        exact relLt_third h2 (by omega)

end Version

/-- C1 counterexample: the claim "every bump with `inc ≥ 1` yields a
strictly larger version" fails as stated.  Four concrete violations:
a non-zero epoch is reset by `bump_micro` ("1!1.2.3" drops to "1.2.4");
a four-component release is truncated by the `replace` inside
`bump_dev` ("1.2.3.4.dev0" drops to "1.2.3.dev1"); `bump_dev` on a pure
pre-release attaches a dev marker which sorts below ("1.2.3a4" drops to
"1.2.3a4.dev0"); and the recursion guard of `bump_major` strips a
post marker on a dev+post version ("1.0.0.post1.dev0" drops to
"1.0.0").  In each case the code returns a version comparing strictly
SMALLER than the input. -/
theorem c1_counterexample :
    (Version.bump_micro ⟨1, [1, 2, 3], none, none, none, none⟩ 1 =
        some ⟨0, [1, 2, 4], none, none, none, none⟩ ∧
      cmpVersion ⟨1, [1, 2, 3], none, none, none, none⟩
        ⟨0, [1, 2, 4], none, none, none, none⟩ = .gt) ∧
    (Version.bump_dev ⟨0, [1, 2, 3, 4], none, none, some 0, none⟩ 1 .micro =
        some ⟨0, [1, 2, 3], none, none, some 1, none⟩ ∧
      cmpVersion ⟨0, [1, 2, 3, 4], none, none, some 0, none⟩
        ⟨0, [1, 2, 3], none, none, some 1, none⟩ = .gt) ∧
    (Version.bump_dev ⟨0, [1, 2, 3], some (.alpha, 4), none, none, none⟩ 1 .micro =
        some ⟨0, [1, 2, 3], some (.alpha, 4), none, some 0, none⟩ ∧
      cmpVersion ⟨0, [1, 2, 3], some (.alpha, 4), none, none, none⟩
        ⟨0, [1, 2, 3], some (.alpha, 4), none, some 0, none⟩ = .gt) ∧
    (Version.bump_major ⟨0, [1, 0, 0], none, some 1, some 0, none⟩ 1 =
        some ⟨0, [1, 0, 0], none, none, none, none⟩ ∧
      cmpVersion ⟨0, [1, 0, 0], none, some 1, some 0, none⟩
        ⟨0, [1, 0, 0], none, none, none, none⟩ = .gt) := by
  refine ⟨⟨?_, by decide⟩, ⟨by decide, by decide⟩, ⟨by decide, by decide⟩, ⟨?_, by decide⟩⟩
  · rw [Version.bump_micro_direct 1 (by decide)]
    decide
  · rw [Version.bump_major_recurse 1 (by decide) (by decide)]
    decide

/-- C1 (amended): on a valid version with epoch 0 and at most three
release components, every bump operation invoked with `inc ≥ 1` returns
a version comparing strictly greater, EXCEPT that (a) for the release
bumps (`bump_major`/`bump_minor`/`bump_micro`/`bump_release`) the
version must additionally not be a dev release carrying a post marker
without a pre marker, and (b) `bump_dev` increases only when the
version is not a pure pre-release (a pre marker with neither dev nor
post marker); in that excluded case it attaches a dev marker, which
sorts below the original. -/
theorem c1_monotonic_bumps (v : BaseVersion) (inc : Int) (hv : validBase v = true)
    (he : v.epoch = 0) (hl : v.release.length ≤ 3) (hinc : 1 ≤ inc) :
    (¬(v.pre = none ∧ v.post ≠ none ∧ v.dev ≠ none) →
      (∃ w, Version.bump_major v inc = some w ∧ cmpVersion v w = .lt) ∧
      (∃ w, Version.bump_minor v inc = some w ∧ cmpVersion v w = .lt) ∧
      (∃ w, Version.bump_micro v inc = some w ∧ cmpVersion v w = .lt) ∧
      (∀ rt, ∃ w, Version.bump_release v rt inc = some w ∧ cmpVersion v w = .lt)) ∧
    (∃ w, Version.bump_prerelease v inc none .micro = some w ∧ cmpVersion v w = .lt) ∧
    (∃ w, Version.bump_postrelease v inc = some w ∧ cmpVersion v w = .lt) ∧
    ((v.pre = none ∨ v.dev ≠ none ∨ v.post ≠ none) →
      ∃ w, Version.bump_dev v inc .micro = some w ∧ cmpVersion v w = .lt) := by
  refine ⟨fun hx => ⟨Version.mono_major hv he hl hinc hx,
    Version.mono_minor hv he hl hinc hx, Version.mono_micro hv he hl hinc hx,
    fun rt => Version.mono_release rt hv he hl hinc hx⟩,
    Version.mono_pre hv he hl hinc, Version.mono_post hv he hinc,
    fun hG => Version.mono_dev hv he hl hinc hG⟩

/-- C1 witness: the amended theorem applied at the concrete stable
version "1.2.3" with `inc = 1`. -/
theorem c1_monotonic_bumps_witness :
    validBase ⟨0, [1, 2, 3], none, none, none, none⟩ = true ∧
    (∃ w, Version.bump_major ⟨0, [1, 2, 3], none, none, none, none⟩ 1 = some w ∧
      cmpVersion ⟨0, [1, 2, 3], none, none, none, none⟩ w = .lt) ∧
    (∃ w, Version.bump_postrelease ⟨0, [1, 2, 3], none, none, none, none⟩ 1 = some w ∧
      cmpVersion ⟨0, [1, 2, 3], none, none, none, none⟩ w = .lt) :=
  ⟨by decide,
    ((c1_monotonic_bumps ⟨0, [1, 2, 3], none, none, none, none⟩ 1 (by decide) (by decide)
      (by decide) (by decide)).1 (by decide)).1,
    (c1_monotonic_bumps ⟨0, [1, 2, 3], none, none, none, none⟩ 1 (by decide) (by decide)
      (by decide) (by decide)).2.2.1⟩

/-- C2 counterexample: on "1.2.3rc3", `bump_prerelease(2, beta)` does
NOT return "1.2.3rc5".  The beta5 candidate compares below rc3, so the
fallback fires; but the fallback honours the explicit beta argument
(only defaulting to rc when no argument was given), bumps micro on the
stabilized version, and resets the increment to `inc` because the
resolved tag differs from the original rc — the release cannot stay at
(1, 2, 3) on the fallback path. -/
theorem c2_counterexample :
    Version.bump_prerelease ⟨0, [1, 2, 3], some (.rc, 3), none, none, none⟩ 2
      (some .beta) .micro ≠
    some ⟨0, [1, 2, 3], some (.rc, 5), none, none, none⟩ := by
  have h1 : Version.get_stable ⟨0, [1, 2, 3], some (PreTag.rc, 3), none, none, none⟩ =
      some ⟨0, [1, 2, 3], none, none, none, none⟩ := by decide
  have h2 : Version.bump_release ⟨0, [1, 2, 3], none, none, none, none⟩ .micro 1 =
      some ⟨0, [1, 2, 4], none, none, none, none⟩ := by
    unfold Version.bump_release
    rw [Version.bump_micro_direct 1 (by decide)]
    decide
  simp only [Version.bump_prerelease, h1, h2]
  decide

/-- C2 (amended): on "1.2.3rc3", `bump_prerelease(2, beta)` returns
"1.2.4b2": the candidate "1.2.3b5" (number `max(3,1) + 2`) compares
below "1.2.3rc3", so the fallback bumps micro on the stabilized version
giving release (1, 2, 4); the pre-release tag honours the explicit
`beta` argument; and the increment resets to `inc = 2` because the
resolved tag beta differs from the original tag rc. -/
theorem c2_prerelease_beta_fallback :
    Version.bump_prerelease ⟨0, [1, 2, 3], some (.rc, 3), none, none, none⟩ 2
      (some .beta) .micro =
    some ⟨0, [1, 2, 4], some (.beta, 2), none, none, none⟩ := by
  have h1 : Version.get_stable ⟨0, [1, 2, 3], some (PreTag.rc, 3), none, none, none⟩ =
      some ⟨0, [1, 2, 3], none, none, none, none⟩ := by decide
  have h2 : Version.bump_release ⟨0, [1, 2, 3], none, none, none, none⟩ .micro 1 =
      some ⟨0, [1, 2, 4], none, none, none, none⟩ := by
    unfold Version.bump_release
    rw [Version.bump_micro_direct 1 (by decide)]
    decide
  simp only [Version.bump_prerelease, h1, h2]
  decide

/-- C3 (amended): the release bumps follow the claimed two-case rule.
When the version is a pre/dev release and its lower components at or
below the target granularity are zero, the bump equals the same bump of
the stabilized version with `inc - 1`; otherwise the result is the
bumped stable triple with epoch 0 and no pre/post/dev/local — PROVIDED
the bumped component stays non-negative; when `inc` is negative enough
to make it negative, the re-parse raises `VersionError` (`none`)
instead of returning the claimed version.  The two concrete examples of
the claim hold. -/
theorem c3_release_bumps (v : BaseVersion) (inc : Int) (hv : validBase v = true) :
    ((Version.is_stable v = false ∧ Version.minor v = 0 ∧ Version.micro v = 0) →
      Version.bump_major v inc = Version.bump_major (Version.get_stableBase v) (inc - 1)) ∧
    ((Version.is_stable v = false ∧ Version.micro v = 0) →
      Version.bump_minor v inc = Version.bump_minor (Version.get_stableBase v) (inc - 1)) ∧
    (Version.is_stable v = false →
      Version.bump_micro v inc = Version.bump_micro (Version.get_stableBase v) (inc - 1)) ∧
    (¬(Version.is_stable v = false ∧ Version.minor v = 0 ∧ Version.micro v = 0) →
      (0 ≤ Version.major v + inc →
        Version.bump_major v inc =
          some ⟨0, [Version.major v + inc, 0, 0], none, none, none, none⟩) ∧
      (Version.major v + inc < 0 → Version.bump_major v inc = none)) ∧
    (¬(Version.is_stable v = false ∧ Version.micro v = 0) →
      (0 ≤ Version.minor v + inc →
        Version.bump_minor v inc =
          some ⟨0, [Version.major v, Version.minor v + inc, 0], none, none, none, none⟩) ∧
      (Version.minor v + inc < 0 → Version.bump_minor v inc = none)) ∧
    (¬(Version.is_stable v = false) →
      (0 ≤ Version.micro v + inc →
        Version.bump_micro v inc =
          some ⟨0, [Version.major v, Version.minor v, Version.micro v + inc], none, none, none, none⟩) ∧
      (Version.micro v + inc < 0 → Version.bump_micro v inc = none)) ∧
    (Version.bump_minor ⟨0, [1, 3, 0], some (.rc, 3), none, none, none⟩ 1 =
      some ⟨0, [1, 3, 0], none, none, none, none⟩) ∧
    (Version.bump_minor ⟨0, [1, 3, 0], some (.rc, 3), none, none, none⟩ 2 =
      some ⟨0, [1, 4, 0], none, none, none, none⟩) := by
  obtain ⟨h0, h1, h2⟩ := Version.valid_mmm hv
  refine ⟨?_, ?_, ?_, ?_, ?_, ?_, ?_, ?_⟩
  · intro h
    rw [Version.bump_major, if_pos h]
    split
    next s hs =>
      rw [Version.get_stable_of_valid hv] at hs
      injection hs with hs
      subst hs
      rfl
    next hs =>
      rw [Version.get_stable_of_valid hv] at hs
      exact absurd hs (by simp)
  · intro h
    rw [Version.bump_minor, if_pos h]
    split
    next s hs =>
      rw [Version.get_stable_of_valid hv] at hs
      injection hs with hs
      subst hs
      rfl
    next hs =>
      rw [Version.get_stable_of_valid hv] at hs
      exact absurd hs (by simp)
  · intro h
    rw [Version.bump_micro, if_pos h]
    split
    next s hs =>
      rw [Version.get_stable_of_valid hv] at hs
      injection hs with hs
      subst hs
      rfl
    next hs =>
      rw [Version.get_stable_of_valid hv] at hs
      exact absurd hs (by simp)
  · intro h
    rw [Version.bump_major_direct inc h]
    constructor
    · intro hpos
      exact replaceBase_of_valid (by simp [validBase, validLocl]; omega)
    · intro hneg
      have hbad : validBase ⟨0, [Version.major v + inc, 0, 0], none, none, none, none⟩ = false := by
        simp [validBase, validLocl]
        omega
      unfold replaceBase
      simp [hbad]
  · intro h
    rw [Version.bump_minor_direct inc h]
    constructor
    · intro hpos
      exact replaceBase_of_valid (by simp [validBase, validLocl]; omega)
    · intro hneg
      have hbad : validBase ⟨0, [Version.major v, Version.minor v + inc, 0], none, none, none, none⟩ = false := by
        simp [validBase, validLocl]
        omega
      unfold replaceBase
      simp [hbad]
  · intro h
    rw [Version.bump_micro_direct inc h]
    constructor
    · intro hpos
      exact replaceBase_of_valid (by simp [validBase, validLocl]; omega)
    · intro hneg
      have hbad : validBase ⟨0, [Version.major v, Version.minor v, Version.micro v + inc], none, none, none, none⟩ = false := by
        simp [validBase, validLocl]
        omega
      unfold replaceBase
      simp [hbad]
  · rw [Version.bump_minor_recurse 1 (by decide) (by decide)]
    decide
  · rw [Version.bump_minor_recurse 2 (by decide) (by decide)]
    decide

/-- C3 counterexample: for `inc` negative enough the "otherwise" branch
does not return the described version at all: `bump_micro("1.2.3", -5)`
would need release (1, 2, -2), whose rendering does not re-parse, so
the code raises `VersionError` (`none`). -/
theorem c3_counterexample :
    Version.bump_micro ⟨0, [1, 2, 3], none, none, none, none⟩ (-5) = none ∧
    Version.bump_micro ⟨0, [1, 2, 3], none, none, none, none⟩ (-5) ≠
      some ⟨0, [1, 2, -2], none, none, none, none⟩ := by
  have h : Version.bump_micro ⟨0, [1, 2, 3], none, none, none, none⟩ (-5) = none := by
    rw [Version.bump_micro_direct (-5) (by decide)]
    decide
  exact ⟨h, by rw [h]; simp⟩

/-- C3 witness: the claim's own example "1.3.0rc3".bump_minor() →
"1.3.0", extracted from the amended theorem at that input. -/
theorem c3_release_bumps_witness :
    validBase ⟨0, [1, 3, 0], some (.rc, 3), none, none, none⟩ = true ∧
    Version.bump_minor ⟨0, [1, 3, 0], some (.rc, 3), none, none, none⟩ 1 =
      some ⟨0, [1, 3, 0], none, none, none, none⟩ :=
  ⟨by decide,
    (c3_release_bumps ⟨0, [1, 3, 0], some (.rc, 3), none, none, none⟩ 1
      (by decide)).2.2.2.2.2.2.1⟩

/-- C4 (amended): `bump_dev` follows the claimed four-case rule, with
two corrections: every facet is preserved EXCEPT that the release
sequence is rebuilt as the `(major, minor, micro)` triple (components
beyond the third are dropped by the `replace` call), and each case
returns a version only while the new dev number (and, in the negative
direction, `inc - 1`) stays non-negative — otherwise `VersionError`
(`none`).  The two concrete examples of the claim hold. -/
theorem c4_bump_dev (v : BaseVersion) (inc : Int) (br : ReleasePart)
    (hv : validBase v = true) :
    (∀ d, v.dev = some d →
      (0 ≤ d + inc → Version.bump_dev v inc br =
        some ⟨v.epoch, [Version.major v, Version.minor v, Version.micro v],
          v.pre, v.post, some (d + inc), v.locl⟩) ∧
      (d + inc < 0 → Version.bump_dev v inc br = none)) ∧
    (v.dev = none → (br = ReleasePart.post ∨ v.post ≠ none) →
      (0 ≤ inc - 1 → Version.bump_dev v inc br =
        some ⟨0, [Version.major v, Version.minor v, Version.micro v], none,
          some (match v.post with | some p => max p 1 + 1 | none => 1),
          some (inc - 1), none⟩) ∧
      (inc - 1 < 0 → Version.bump_dev v inc br = none)) ∧
    (v.dev = none → ¬(br = ReleasePart.post ∨ v.post ≠ none) → v.pre = none →
      (0 ≤ inc - 1 → Version.bump_dev v inc br =
        some ⟨0,
          (match br with
            | ReleasePart.major => [Version.major v + 1, 0, 0]
            | ReleasePart.minor => [Version.major v, Version.minor v + 1, 0]
            | _ => [Version.major v, Version.minor v, Version.micro v + 1]),
          none, none, some (inc - 1), none⟩) ∧
      (inc - 1 < 0 → Version.bump_dev v inc br = none)) ∧
    (v.dev = none → ¬(br = ReleasePart.post ∨ v.post ≠ none) → v.pre ≠ none →
      (0 ≤ inc - 1 → Version.bump_dev v inc br =
        some ⟨v.epoch, [Version.major v, Version.minor v, Version.micro v],
          v.pre, none, some (inc - 1), v.locl⟩) ∧
      (inc - 1 < 0 → Version.bump_dev v inc br = none)) ∧
    (Version.bump_dev ⟨0, [1, 2, 3], none, none, some 14, none⟩ 1 .micro =
      some ⟨0, [1, 2, 3], none, none, some 15, none⟩) ∧
    (Version.bump_dev ⟨0, [1, 2, 3], none, some 4, none, none⟩ 1 .micro =
      some ⟨0, [1, 2, 3], none, some 5, some 0, none⟩) := by
  obtain ⟨hep, hne, hrel, hprev, hpostv, hdevv, hloc⟩ := Version.valid_split hv
  obtain ⟨h0, h1, h2⟩ := Version.valid_mmm hv
  refine ⟨?_, ?_, ?_, ?_, by decide, by decide⟩
  · -- case 1: already a dev release
    intro d hdv
    have hdevt : Version.is_devrelease v = true := by simp [Version.is_devrelease, hdv]
    have hrep : Version.replace v none none none none none none (some (d + inc)) none none none =
        replaceBase ⟨v.epoch, [Version.major v, Version.minor v, Version.micro v],
          v.pre, v.post, some (d + inc), v.locl⟩ := rfl
    constructor
    · intro hpos
      have hvw : validBase ⟨v.epoch, [Version.major v, Version.minor v, Version.micro v],
          v.pre, v.post, some (d + inc), v.locl⟩ = true :=
        validBase_build _ _ _ _ _ _ hep (by simp)
          (by intro x hx; simp at hx; rcases hx with rfl | rfl | rfl <;> omega)
          hprev hpostv (fun n hn => by injection hn with hn; omega) hloc
      simp [Version.bump_dev, hdevt, hdv, hrep, replaceBase_of_valid hvw]
    · intro hneg
      have hbad : validBase ⟨v.epoch, [Version.major v, Version.minor v, Version.micro v],
          v.pre, v.post, some (d + inc), v.locl⟩ = false := by
        simp [validBase, show ¬(0 ≤ d + inc) from by omega]
      have hrn : replaceBase ⟨v.epoch, [Version.major v, Version.minor v, Version.micro v],
          v.pre, v.post, some (d + inc), v.locl⟩ = none := by
        unfold replaceBase
        simp [hbad]
      simp [Version.bump_dev, hdevt, hdv, hrep, hrn]
  · -- case 2: post release, or asked for one
    intro hdv hcond
    have hdevf : Version.is_devrelease v = false := by simp [Version.is_devrelease, hdv]
    cases hpo : v.post with
    | some p =>
      have hp0 : 0 ≤ p := hpostv p hpo
      have hpostt : Version.is_postrelease v = true := by simp [Version.is_postrelease, hpo]
      have hvu : validBase ⟨0, v.release, none, some (max p 1 + 1), none, none⟩ = true :=
        validBase_build _ _ _ _ _ _ (by omega) hne hrel (by simp)
          (fun n hn => by injection hn with hn; omega) (by simp) (by simp [validLocl])
      have hpost1 : Version.bump_postrelease v 1 =
          some ⟨0, v.release, none, some (max p 1 + 1), none, none⟩ := by
        rw [Version.bump_postrelease_eq, hpo]
        exact replaceBase_of_valid hvu
      have hrep : Version.replace ⟨0, v.release, none, some (max p 1 + 1), none, none⟩
          none none none none none none (some (inc - 1)) none none none =
          replaceBase ⟨0, [Version.major v, Version.minor v, Version.micro v], none,
            some (max p 1 + 1), some (inc - 1), none⟩ := rfl
      constructor
      · intro hpos
        have hvw : validBase ⟨0, [Version.major v, Version.minor v, Version.micro v], none,
            some (max p 1 + 1), some (inc - 1), none⟩ = true :=
          validBase_build _ _ _ _ _ _ (by omega) (by simp)
            (by intro x hx; simp at hx; rcases hx with rfl | rfl | rfl <;> omega)
            (by simp) (fun n hn => by injection hn with hn; omega)
            (fun n hn => by injection hn with hn; omega) (by simp [validLocl])
        simp [Version.bump_dev, hdevf, hpostt, hpost1, hrep, replaceBase_of_valid hvw]
      · intro hneg
        have hbad : validBase ⟨0, [Version.major v, Version.minor v, Version.micro v], none,
            some (max p 1 + 1), some (inc - 1), none⟩ = false := by
          simp [validBase, show ¬(0 ≤ inc - 1) from by omega]
        have hrn : replaceBase ⟨0, [Version.major v, Version.minor v, Version.micro v], none,
            some (max p 1 + 1), some (inc - 1), none⟩ = none := by
          unfold replaceBase
          simp [hbad]
        simp [Version.bump_dev, hdevf, hpostt, hpost1, hrep, hrn]
    | none =>
      have hbr : br = ReleasePart.post := by
        rcases hcond with h | h
        · exact h
        · exact absurd hpo h
      have hvu : validBase ⟨0, v.release, none, some (max (1 : Int) 1), none, none⟩ = true :=
        validBase_build _ _ _ _ _ _ (by omega) hne hrel (by simp)
          (fun n hn => by injection hn with hn; omega) (by simp) (by simp [validLocl])
      have hpost1 : Version.bump_postrelease v 1 =
          some ⟨0, v.release, none, some 1, none, none⟩ := by
        rw [Version.bump_postrelease_eq, hpo]
        exact replaceBase_of_valid hvu
      have hrep : Version.replace ⟨0, v.release, none, some 1, none, none⟩
          none none none none none none (some (inc - 1)) none none none =
          replaceBase ⟨0, [Version.major v, Version.minor v, Version.micro v], none,
            some 1, some (inc - 1), none⟩ := rfl
      constructor
      · intro hpos
        have hvw : validBase ⟨0, [Version.major v, Version.minor v, Version.micro v], none,
            some 1, some (inc - 1), none⟩ = true :=
          validBase_build _ _ _ _ _ _ (by omega) (by simp)
            (by intro x hx; simp at hx; rcases hx with rfl | rfl | rfl <;> omega)
            (by simp) (fun n hn => by injection hn with hn; omega)
            (fun n hn => by injection hn with hn; omega) (by simp [validLocl])
        simp [Version.bump_dev, hdevf, hbr, hpost1, hrep, replaceBase_of_valid hvw]
      · intro hneg
        have hbad : validBase ⟨0, [Version.major v, Version.minor v, Version.micro v], none,
            some 1, some (inc - 1), none⟩ = false := by
          simp [validBase, show ¬(0 ≤ inc - 1) from by omega]
        have hrn : replaceBase ⟨0, [Version.major v, Version.minor v, Version.micro v], none,
            some 1, some (inc - 1), none⟩ = none := by
          unfold replaceBase
          simp [hbad]
        simp [Version.bump_dev, hdevf, hbr, hpost1, hrep, hrn]
  · -- case 3: stable
    intro hdv hncond hpre
    obtain ⟨hbrne, hpon⟩ := not_or.mp hncond
    have hpo : v.post = none := not_not.mp hpon
    have hstable : Version.is_stable v = true := by
      simp [Version.is_stable, Version.is_prerelease, hpre, hdv]
    have hdevf : Version.is_devrelease v = false := by simp [Version.is_devrelease, hdv]
    have hpostf : Version.is_postrelease v = false := by simp [Version.is_postrelease, hpo]
    cases br with
    | post => exact absurd rfl hbrne
    | major =>
      have hvu : validBase ⟨0, [Version.major v + 1, 0, 0], none, none, none, none⟩ = true := by
        simp [validBase, validLocl]
        omega
      have hbump : Version.bump_release v ReleasePart.major 1 =
          some ⟨0, [Version.major v + 1, 0, 0], none, none, none, none⟩ := by
        rw [show Version.bump_release v ReleasePart.major 1 = Version.bump_major v 1 from rfl,
          Version.bump_major_direct 1 (by simp [hstable])]
        exact replaceBase_of_valid hvu
      have hrep : Version.replace ⟨0, [Version.major v + 1, 0, 0], none, none, none, none⟩
          none none none none none none (some (inc - 1)) none none none =
          replaceBase ⟨0, [Version.major v + 1, 0, 0], none, none, some (inc - 1), none⟩ := rfl
      constructor
      · intro hpos
        have hvw : validBase ⟨0, [Version.major v + 1, 0, 0], none, none,
            some (inc - 1), none⟩ = true := by
          simp [validBase, validLocl]
          omega
        simp [Version.bump_dev, hdevf, hpostf, hstable, hbump, hrep, replaceBase_of_valid hvw]
      · intro hneg
        have hbad : validBase ⟨0, [Version.major v + 1, 0, 0], none, none,
            some (inc - 1), none⟩ = false := by
          simp [validBase, show ¬(0 ≤ inc - 1) from by omega]
        have hrn : replaceBase ⟨0, [Version.major v + 1, 0, 0], none, none,
            some (inc - 1), none⟩ = none := by
          unfold replaceBase
          simp [hbad]
        simp [Version.bump_dev, hdevf, hpostf, hstable, hbump, hrep, hrn]
    | minor =>
      have hvu : validBase ⟨0, [Version.major v, Version.minor v + 1, 0], none, none, none, none⟩ = true := by
        simp [validBase, validLocl]
        omega
      have hbump : Version.bump_release v ReleasePart.minor 1 =
          some ⟨0, [Version.major v, Version.minor v + 1, 0], none, none, none, none⟩ := by
        rw [show Version.bump_release v ReleasePart.minor 1 = Version.bump_minor v 1 from rfl,
          Version.bump_minor_direct 1 (by simp [hstable])]
        exact replaceBase_of_valid hvu
      have hrep : Version.replace ⟨0, [Version.major v, Version.minor v + 1, 0], none, none, none, none⟩
          none none none none none none (some (inc - 1)) none none none =
          replaceBase ⟨0, [Version.major v, Version.minor v + 1, 0], none, none,
            some (inc - 1), none⟩ := rfl
      constructor
      · intro hpos
        have hvw : validBase ⟨0, [Version.major v, Version.minor v + 1, 0], none, none,
            some (inc - 1), none⟩ = true := by
          simp [validBase, validLocl]
          omega
        simp [Version.bump_dev, hdevf, hpostf, hstable, hbump, hrep, replaceBase_of_valid hvw]
      · intro hneg
        have hbad : validBase ⟨0, [Version.major v, Version.minor v + 1, 0], none, none,
            some (inc - 1), none⟩ = false := by
          simp [validBase, show ¬(0 ≤ inc - 1) from by omega]
        have hrn : replaceBase ⟨0, [Version.major v, Version.minor v + 1, 0], none, none,
            some (inc - 1), none⟩ = none := by
          unfold replaceBase
          simp [hbad]
        simp [Version.bump_dev, hdevf, hpostf, hstable, hbump, hrep, hrn]
    | micro =>
      have hvu : validBase ⟨0, [Version.major v, Version.minor v, Version.micro v + 1], none, none, none, none⟩ = true := by
        simp [validBase, validLocl]
        omega
      have hbump : Version.bump_release v ReleasePart.micro 1 =
          some ⟨0, [Version.major v, Version.minor v, Version.micro v + 1], none, none, none, none⟩ := by
        rw [show Version.bump_release v ReleasePart.micro 1 = Version.bump_micro v 1 from rfl,
          Version.bump_micro_direct 1 (by simp [hstable])]
        exact replaceBase_of_valid hvu
      have hrep : Version.replace ⟨0, [Version.major v, Version.minor v, Version.micro v + 1], none, none, none, none⟩
          none none none none none none (some (inc - 1)) none none none =
          replaceBase ⟨0, [Version.major v, Version.minor v, Version.micro v + 1], none, none,
            some (inc - 1), none⟩ := rfl
      constructor
      · intro hpos
        have hvw : validBase ⟨0, [Version.major v, Version.minor v, Version.micro v + 1], none, none,
            some (inc - 1), none⟩ = true := by
          simp [validBase, validLocl]
          omega
        simp [Version.bump_dev, hdevf, hpostf, hstable, hbump, hrep, replaceBase_of_valid hvw]
      · intro hneg
        have hbad : validBase ⟨0, [Version.major v, Version.minor v, Version.micro v + 1], none, none,
            some (inc - 1), none⟩ = false := by
          simp [validBase, show ¬(0 ≤ inc - 1) from by omega]
        have hrn : replaceBase ⟨0, [Version.major v, Version.minor v, Version.micro v + 1], none, none,
            some (inc - 1), none⟩ = none := by
          unfold replaceBase
          simp [hbad]
        simp [Version.bump_dev, hdevf, hpostf, hstable, hbump, hrep, hrn]
  · -- case 4: pre release without dev
    intro hdv hncond hprene
    obtain ⟨q, hpre⟩ := Option.ne_none_iff_exists'.mp hprene
    obtain ⟨hbrne, hpon⟩ := not_or.mp hncond
    have hpo : v.post = none := not_not.mp hpon
    have hstf : Version.is_stable v = false := by
      simp [Version.is_stable, Version.is_prerelease, hpre]
    have hdevf : Version.is_devrelease v = false := by simp [Version.is_devrelease, hdv]
    have hpostf : Version.is_postrelease v = false := by simp [Version.is_postrelease, hpo]
    have hrep : Version.replace v none none none none none none (some (inc - 1)) none none none =
        replaceBase ⟨v.epoch, [Version.major v, Version.minor v, Version.micro v],
          v.pre, v.post, some (inc - 1), v.locl⟩ := rfl
    rw [hpo] at hrep
    constructor
    · intro hpos
      have hvw : validBase ⟨v.epoch, [Version.major v, Version.minor v, Version.micro v],
          v.pre, none, some (inc - 1), v.locl⟩ = true :=
        validBase_build _ _ _ _ _ _ hep (by simp)
          (by intro x hx; simp at hx; rcases hx with rfl | rfl | rfl <;> omega)
          hprev (by simp) (fun n hn => by injection hn with hn; omega) hloc
      simp [Version.bump_dev, hdevf, hpostf, hstf, hbrne, hrep, replaceBase_of_valid hvw]
    · intro hneg
      have hbad : validBase ⟨v.epoch, [Version.major v, Version.minor v, Version.micro v],
          v.pre, none, some (inc - 1), v.locl⟩ = false := by
        simp [validBase, show ¬(0 ≤ inc - 1) from by omega]
      have hrn : replaceBase ⟨v.epoch, [Version.major v, Version.minor v, Version.micro v],
          v.pre, none, some (inc - 1), v.locl⟩ = none := by
        unfold replaceBase
        simp [hbad]
      simp [Version.bump_dev, hdevf, hpostf, hstf, hbrne, hrep, hrn]

/-- C4 counterexample: on the dev release "1.2.3.4.dev0", `bump_dev`
does NOT leave "every other facet of v untouched": the `replace` call
rebuilds the release as the `(major, minor, micro)` triple, dropping
the fourth component. -/
theorem c4_counterexample :
    (Version.bump_dev ⟨0, [1, 2, 3, 4], none, none, some 0, none⟩ 1 .micro).map
      BaseVersion.release ≠ some [1, 2, 3, 4] := by decide

/-- C4 witness: the dev-release case of the amended theorem applied at
"1.2.3.dev14" with `inc = 1`. -/
theorem c4_bump_dev_witness :
    validBase ⟨0, [1, 2, 3], none, none, some 14, none⟩ = true ∧
    Version.bump_dev ⟨0, [1, 2, 3], none, none, some 14, none⟩ 1 .micro =
      some ⟨0, [1, 2, 3], none, none, some 15, none⟩ :=
  ⟨by decide,
    (((c4_bump_dev ⟨0, [1, 2, 3], none, none, some 14, none⟩ 1 .micro (by decide)).1 14
      rfl).1 (by decide))⟩

/-- C5 (amended): `bump_postrelease` returns a version whose post
number is `max(current, 1) + inc` when a post marker exists and
`max(inc, 1)` otherwise, with the release sequence kept verbatim and
pre/dev/local cleared — provided the computed post number is
non-negative; when `inc` is negative enough the re-parse raises
`VersionError` (`none`) instead (only possible in the marker-present
case, since `max(inc, 1) ≥ 1`). -/
theorem c5_bump_postrelease (v : BaseVersion) (inc : Int) (hv : validBase v = true) :
    (∀ p, v.post = some p →
      (0 ≤ max p 1 + inc → Version.bump_postrelease v inc =
        some ⟨0, v.release, none, some (max p 1 + inc), none, none⟩) ∧
      (max p 1 + inc < 0 → Version.bump_postrelease v inc = none)) ∧
    (v.post = none → Version.bump_postrelease v inc =
      some ⟨0, v.release, none, some (max inc 1), none, none⟩) := by
  obtain ⟨hep, hne, hrel, hprev, hpostv, hdevv, hloc⟩ := Version.valid_split hv
  constructor
  · intro p hpo
    constructor
    · intro hpos
      rw [Version.bump_postrelease_eq, hpo]
      have hvb : validBase ⟨0, v.release, none, some (max p 1 + inc), none, none⟩ = true :=
        validBase_build _ _ _ _ _ _ (by omega) hne hrel (by simp)
          (fun n hn => by injection hn with hn; omega) (by simp) (by simp [validLocl])
      exact replaceBase_of_valid hvb
    · intro hneg
      rw [Version.bump_postrelease_eq, hpo]
      have hbad : validBase ⟨0, v.release, none, some (max p 1 + inc), none, none⟩ = false := by
        simp [validBase, show ¬(0 ≤ max p 1 + inc) from by omega]
      unfold replaceBase
      simp [hbad]
  · intro hpo
    rw [Version.bump_postrelease_eq, hpo]
    have hvb : validBase ⟨0, v.release, none, some (max inc 1), none, none⟩ = true :=
      validBase_build _ _ _ _ _ _ (by omega) hne hrel (by simp)
        (fun n hn => by injection hn with hn; omega) (by simp) (by simp [validLocl])
    exact replaceBase_of_valid hvb

/-- C5 counterexample: with a negative increment the claimed version is
not returned at all: `bump_postrelease("1.2.3.post1", -3)` would need
post number `max(1,1) - 3 = -2`, so the re-parse raises `VersionError`
(`none`). -/
theorem c5_counterexample :
    Version.bump_postrelease ⟨0, [1, 2, 3], none, some 1, none, none⟩ (-3) = none := by
  decide

/-- C5 witness: the marker-present case of the amended theorem applied
at "1.2.3.post4" with `inc = 2`, giving "1.2.3.post6". -/
theorem c5_bump_postrelease_witness :
    validBase ⟨0, [1, 2, 3], none, some 4, none, none⟩ = true ∧
    Version.bump_postrelease ⟨0, [1, 2, 3], none, some 4, none, none⟩ 2 =
      some ⟨0, [1, 2, 3], none, some 6, none, none⟩ :=
  ⟨by decide,
    ((c5_bump_postrelease ⟨0, [1, 2, 3], none, some 4, none, none⟩ 2 (by decide)).1 4
      rfl).1 (by decide)⟩

/-- C6 (amended): `replace` preserves from the current version every
facet not explicitly passed — epoch, pre (when none of alpha/beta/rc is
given), dev, post, local — EXCEPT the release sequence, which is always
rebuilt as exactly the `(major, minor, micro)` triple: components not
passed are taken from the properties (so a fourth or later release
component is silently dropped). -/
theorem c6_replace_frame (v : BaseVersion)
    (majorA minorA microA alphaA betaA rcA devA postA epochA : Option Int)
    (loclA : Option String) (w : BaseVersion)
    (h : Version.replace v majorA minorA microA alphaA betaA rcA devA postA epochA loclA =
      some w) :
    (epochA = none → w.epoch = v.epoch) ∧
    (∀ e, epochA = some e → w.epoch = e) ∧
    (alphaA = none → betaA = none → rcA = none → w.pre = v.pre) ∧
    (devA = none → w.dev = v.dev) ∧
    (postA = none → w.post = v.post) ∧
    (loclA = none → w.locl = v.locl) ∧
    w.release = [majorA.getD (Version.major v), minorA.getD (Version.minor v),
      microA.getD (Version.micro v)] := by
  simp only [Version.replace] at h
  obtain ⟨-, hw⟩ := replaceBase_some_imp h
  subst hw
  refine ⟨?_, ?_, ?_, ?_, ?_, ?_, ?_⟩
  · intro h1
    simp [Version.copy_base, h1]
  · intro e h1
    simp [Version.copy_base, h1]
  · intro h1 h2 h3
    simp [Version.copy_base, Version.pick, h1, h2, h3]
  · intro h1
    simp [Version.copy_base, Version.pick, h1]
  · intro h1
    simp [Version.copy_base, Version.pick, h1]
  · intro h1
    simp [Version.copy_base, Version.pick, h1]
  · simp [Version.copy_base]

/-- C6 counterexample: `replace` does not preserve release components
beyond the third.  On "1.2.3.4", passing only `dev=5` still rebuilds
the release as (1, 2, 3), dropping the fourth component. -/
theorem c6_counterexample :
    (Version.replace ⟨0, [1, 2, 3, 4], none, none, none, none⟩ none none none none none
      none (some 5) none none none).map BaseVersion.release ≠ some [1, 2, 3, 4] := by
  decide

/-- C6 witness: the amended theorem applied at a version carrying every
facet, passing only `major=9`: the pre marker is preserved. -/
theorem c6_replace_frame_witness :
    Version.replace ⟨0, [1, 2, 3], some (.alpha, 1), some 2, some 3, none⟩ (some 9) none
      none none none none none none none none =
      some ⟨0, [9, 2, 3], some (.alpha, 1), some 2, some 3, none⟩ ∧
    (⟨0, [9, 2, 3], some (.alpha, 1), some 2, some 3, none⟩ : BaseVersion).pre =
      (⟨0, [1, 2, 3], some (.alpha, 1), some 2, some 3, none⟩ : BaseVersion).pre :=
  ⟨by decide,
    (c6_replace_frame ⟨0, [1, 2, 3], some (.alpha, 1), some 2, some 3, none⟩ (some 9) none
      none none none none none none none none
      ⟨0, [9, 2, 3], some (.alpha, 1), some 2, some 3, none⟩ (by decide)).2.2.1 rfl rfl rfl⟩

/-- C7: when several of the alpha/beta/rc arguments of `replace` are
supplied, the pre marker of the result follows the fixed priority order
alpha < beta < rc (the source assigns them in that order, so the last
assignment wins): rc overrides beta and alpha, beta overrides alpha. -/
theorem c7_replace_pre_priority (v : BaseVersion) (a b r : Int) :
    (∀ w, Version.replace v none none none (some a) none (some r) none none none none =
      some w → w.pre = some (PreTag.rc, r)) ∧
    (∀ w, Version.replace v none none none (some a) (some b) none none none none none =
      some w → w.pre = some (PreTag.beta, b)) ∧
    (∀ w, Version.replace v none none none none (some b) (some r) none none none none =
      some w → w.pre = some (PreTag.rc, r)) ∧
    (∀ w, Version.replace v none none none (some a) (some b) (some r) none none none none =
      some w → w.pre = some (PreTag.rc, r)) := by
  refine ⟨?_, ?_, ?_, ?_⟩ <;>
    intro w h <;>
    · simp only [Version.replace] at h
      obtain ⟨-, hw⟩ := replaceBase_some_imp h
      subst hw
      simp [Version.copy_base, Version.pick]

/-- C7 witness: the all-three case at "0.0.0" with alpha=1, beta=2,
rc=3 yields pre marker (rc, 3). -/
theorem c7_replace_pre_priority_witness :
    Version.replace ⟨0, [0, 0, 0], none, none, none, none⟩ none none none (some 1) (some 2)
      (some 3) none none none none =
      some ⟨0, [0, 0, 0], some (PreTag.rc, 3), none, none, none⟩ ∧
    (⟨0, [0, 0, 0], some (PreTag.rc, 3), none, none, none⟩ : BaseVersion).pre =
      some (PreTag.rc, 3) :=
  ⟨by decide,
    (c7_replace_pre_priority ⟨0, [0, 0, 0], none, none, none, none⟩ 1 2 3).2.2.2
      ⟨0, [0, 0, 0], some (PreTag.rc, 3), none, none, none⟩ (by decide)⟩

/-- C8: `get_stable` strips pre/post/dev/local, keeping epoch 0 and the
`(major, minor, micro)` triple, and it is idempotent: applying it to
its own (always defined) result returns the same version. -/
theorem c8_get_stable_idempotent (v : BaseVersion) (hv : validBase v = true) :
    Version.get_stable v = some ⟨0, [Version.major v, Version.minor v, Version.micro v],
      none, none, none, none⟩ ∧
    (Version.get_stable v).bind Version.get_stable = Version.get_stable v := by
  have h1 := Version.get_stable_of_valid hv
  refine ⟨h1, ?_⟩
  rw [h1, Option.some_bind]
  exact Version.get_stable_of_valid (Version.valid_get_stableBase hv)

/-- C8 witness: idempotence at the post release "1.2.5.post3", whose
stabilization is "1.2.5". -/
theorem c8_get_stable_idempotent_witness :
    validBase ⟨0, [1, 2, 5], none, some 3, none, none⟩ = true ∧
    Version.get_stable ⟨0, [1, 2, 5], none, some 3, none, none⟩ =
      some ⟨0, [1, 2, 5], none, none, none, none⟩ ∧
    (Version.get_stable ⟨0, [1, 2, 5], none, some 3, none, none⟩).bind Version.get_stable =
      Version.get_stable ⟨0, [1, 2, 5], none, some 3, none, none⟩ :=
  ⟨by decide,
    (c8_get_stable_idempotent ⟨0, [1, 2, 5], none, some 3, none, none⟩ (by decide)).1,
    (c8_get_stable_idempotent ⟨0, [1, 2, 5], none, some 3, none, none⟩ (by decide)).2⟩

/-- C9: `is_stable` holds exactly when the version has neither a pre
marker nor a dev marker; in particular a post release without pre or
dev markers is stable. -/
theorem c9_is_stable_iff :
    (∀ v : BaseVersion, Version.is_stable v = true ↔ (v.pre = none ∧ v.dev = none)) ∧
    Version.is_stable ⟨0, [1, 2, 3], none, some 4, none, none⟩ = true := by
  refine ⟨?_, by decide⟩
  intro v
  cases hpre : v.pre <;> cases hdv : v.dev <;>
    simp [Version.is_stable, Version.is_prerelease, hpre, hdv]

/-- C10: `bump_prerelease` and `bump_postrelease` always rebuild with
epoch 0, so a non-zero input epoch is silently discarded whenever they
return a version. -/
theorem c10_epoch_reset :
    (∀ (v : BaseVersion) (inc : Int) (rt : Option PreTag) (br : ReleasePart)
      (w : BaseVersion), Version.bump_prerelease v inc rt br = some w → w.epoch = 0) ∧
    (∀ (v : BaseVersion) (inc : Int) (w : BaseVersion),
      Version.bump_postrelease v inc = some w → w.epoch = 0) := by
  constructor
  · intro v inc rt br w h
    simp only [Version.bump_prerelease] at h
    split at h
    · exact absurd h (by simp)
    · split at h
      · exact absurd h (by simp)
      · obtain ⟨-, hw⟩ := replaceBase_some_imp h
        subst hw
        rfl
  · intro v inc w h
    rw [Version.bump_postrelease_eq] at h
    obtain ⟨-, hw⟩ := replaceBase_some_imp h
    subst hw
    rfl

/-- C10 witness: bumping the post release of "2!1.2.3" returns
"1.2.3.post1" with epoch 0. -/
theorem c10_epoch_reset_witness :
    Version.bump_postrelease ⟨2, [1, 2, 3], none, none, none, none⟩ 1 =
      some ⟨0, [1, 2, 3], none, some 1, none, none⟩ ∧
    (⟨0, [1, 2, 3], none, some 1, none, none⟩ : BaseVersion).epoch = 0 :=
  ⟨by decide,
    c10_epoch_reset.2 ⟨2, [1, 2, 3], none, none, none, none⟩ 1
      ⟨0, [1, 2, 3], none, some 1, none, none⟩ (by decide)⟩
